import Mathlib

/-!
# Verification of the tasker docstore store engine

A shallow embedding, in Lean 4, of the store engine of the
`tasker-docstore-framework` repository (Go package `store`: task store,
idea store, selector resolution engine), together with theorems settling
the specification claims about it.

Modelling conventions, stated once here:

* The filesystem is modelled as an explicit in-memory state (`Disk`):
  a configuration, the list of parsed `project.json` records, and the
  record files (task files under `projects/<slug>/...`, idea files under
  the root or per-project `ideas/` directories), each file carrying its
  textual content.  File paths are kept structurally (project slug, the
  directory components below the project directory, file name); the
  rendered path string is used wherever the Go code compares or sorts
  path strings.
* `time.Time` values are modelled by their rendered RFC3339 UTC strings:
  for a fixed-width UTC rendering, `time.After` is lexicographic `>` and
  `time.Equal` is string equality.  The global clock (`timeNow`) and the
  ULID generator are passed as explicit arguments to the operations that
  use them.
* Go `sort.Slice` is modelled by Go's own insertion sort (`goSort`
  below), which `sort.Slice` uses verbatim for slices shorter than 12
  elements; for a comparator that is a strict weak order the two agree on
  every length.
* Go Unicode case mapping (`strings.ToLower`, `strings.ToUpper`) is
  modelled by ASCII case mapping, and `strings.TrimSpace` trims the
  ASCII whitespace class; the two agree on ASCII data, which is the only
  data the store itself produces.
* `yaml.Marshal` / `yaml.Unmarshal` of the `TaskMeta` struct are modelled
  by an explicit codec (`yamlMarshalMeta` / `yamlUnmarshalMeta`) emitting
  exactly the documented task-file header (STORAGE_SPEC.md): one
  `key: value` line per field in struct order, string values
  double-quoted, the tag list in flow style, absent timestamps as
  `null`.  The parser accepts exactly the emitted shape; go-yaml accepts
  more, but nothing in the store writes anything else.
-/

namespace Store

set_option maxRecDepth 100000

/-! ## Characters and strings: Go string helpers -/

/-- Go `strings.TrimSpace` (ASCII whitespace). -/
def trimSpace (s : String) : String :=
  String.mk (((s.data.dropWhile Char.isWhitespace).reverse.dropWhile
    Char.isWhitespace).reverse)

/-- Go `strings.ToLower` (ASCII case mapping, see header comment). -/
def toLowerS (s : String) : String := String.mk (s.data.map Char.toLower)

/-- Go `strings.ToUpper` (ASCII case mapping). -/
def toUpperS (s : String) : String := String.mk (s.data.map Char.toUpper)

/-- Go `strings.HasPrefix`. -/
def hasPrefixS (s pre : String) : Bool := pre.data.isPrefixOf s.data

/-- Go `strings.HasSuffix`. -/
def hasSuffixS (s suf : String) : Bool := suf.data.isSuffixOf s.data

/-- Substring occurrence test on character lists. -/
def containsData : List Char → List Char → Bool
  | _, [] => true
  | [], _ :: _ => false
  | c :: cs, sub => (sub.isPrefixOf (c :: cs)) || containsData cs sub

/-- Go `strings.Contains`. -/
def containsS (s sub : String) : Bool := containsData s.data sub.data

/-- Go `strings.ContainsRune` over a set given as a string. -/
def containsRuneS (s : String) (c : Char) : Bool := s.data.contains c

/-- Character comparison by code point. -/
def charLtB (a b : Char) : Bool := decide (a.toNat < b.toNat)

/-- Lexicographic comparison of character lists. -/
def dataLt : List Char → List Char → Bool
  | [], [] => false
  | [], _ :: _ => true
  | _ :: _, [] => false
  | a :: as, b :: bs =>
    if charLtB a b then true else if charLtB b a then false else dataLt as bs

/-- String comparison used by Go `sort.Strings` and `<` on strings:
    lexicographic byte order, which for UTF-8 data equals the
    lexicographic character (code point) order used here. -/
def sltB (a b : String) : Bool := dataLt a.data b.data

/-- Split a character list at every newline, keeping empty segments
    (the semantics of Go `strings.Split(s, "\n")`). -/
def splitNLData : List Char → List (List Char)
  | [] => [[]]
  | c :: cs =>
    match splitNLData cs with
    | [] => [[]]
    | l :: ls => if c = '\n' then [] :: l :: ls else (c :: l) :: ls

/-- Join character-list lines with newlines (inverse of `splitNLData`). -/
def joinNLData : List (List Char) → List Char
  | [] => []
  | [l] => l
  | l :: ls => l ++ '\n' :: joinNLData ls

/-- Go `strings.Split(s, "\n")`. -/
def linesOf (s : String) : List String :=
  (splitNLData s.data).map (fun l => String.mk l)

/-- `String.intercalate "\n"`, the inverse of `linesOf`. -/
def joinNL (ls : List String) : String :=
  String.mk (joinNLData (ls.map String.data))

/-- Newline normalisation done by the parsers:
    `strings.ReplaceAll(s, "\r\n", "\n")` then
    `strings.ReplaceAll(s, "\r", "\n")`. -/
def normNLData : List Char → List Char
  | [] => []
  | c :: cs =>
    if c = '\r' then
      match cs with
      | '\n' :: cs2 => '\n' :: normNLData cs2
      | [] => ['\n']
      | c2 :: cs2 => '\n' :: normNLData (c2 :: cs2)
    else c :: normNLData cs

/-- Newline normalisation at the string level. -/
def normNL (s : String) : String := String.mk (normNLData s.data)

/-- Go `strings.TrimRight(s, "\n")`. -/
def trimRightNL (s : String) : String :=
  String.mk (s.data.reverse.dropWhile (· = '\n')).reverse

/-- Go `strings.TrimLeft(s, cutset)`. -/
def trimLeftCut (s cutset : String) : String :=
  String.mk (s.data.dropWhile (fun c => cutset.data.contains c))

/-- Go `strings.Trim(s, "-")`. -/
def trimHyphens (s : String) : String :=
  String.mk (((s.data.dropWhile (· = '-')).reverse.dropWhile (· = '-')).reverse)

/-- Go `strings.TrimPrefix`. -/
def trimPrefixS (s pre : String) : String :=
  if hasPrefixS s pre then String.mk (s.data.drop pre.data.length) else s

/-- Go `strings.Join` / `String.intercalate`. -/
def intercalateS (sep : String) : List String → String
  | [] => ""
  | [x] => x
  | x :: xs => x ++ sep ++ intercalateS sep xs

/-! ## Go `sort.Slice`, modelled by Go's insertion sort

Go's `insertionSort` moves each element left past its predecessors while
`less` holds.  `insRight lt x racc` inserts `x` coming from the right
into the reversed already-sorted prefix `racc`; `goSort` folds it over
the slice and un-reverses. -/

/-- One insertion step of Go insertion sort, on the reversed prefix. -/
def insRight (lt : α → α → Bool) (x : α) : List α → List α
  | [] => [x]
  | y :: ys => if lt x y then y :: insRight lt x ys else x :: y :: ys

/-- Go `sort.Slice` with comparator `lt` (see header comment). -/
def goSort (lt : α → α → Bool) (l : List α) : List α :=
  (l.foldl (fun racc x => insRight lt x racc) []).reverse

/-! ## Data model (Go structs of package `store`) -/

/-- Go `store.ColumnDef`. -/
structure ColumnDef where
  id : String
  name : String
  dir : String
  status : String
  deriving DecidableEq, Repr

/-- Go `store.Config` (the `agent` block is irrelevant to the store
    engine and omitted). -/
structure Config where
  schema : Nat
  columns : List ColumnDef
  deriving DecidableEq, Repr

/-- Go `store.Project` (timestamps as rendered RFC3339 strings, see
    header comment). -/
structure Project where
  schema : Nat
  id : String
  name : String
  slug : String
  createdAt : String
  updatedAt : String
  deriving DecidableEq, Repr

/-- Go `store.TaskMeta`.  `time.Time` pointers are `Option String`
    (`none` = nil). -/
structure TaskMeta where
  schema : Nat
  id : String
  title : String
  status : String
  project : String
  column : String
  priority : String
  tags : List String
  due : String
  createdAt : Option String
  updatedAt : Option String
  completedAt : Option String
  archivedAt : Option String
  deriving DecidableEq, Repr

/-- A structural file path below `<root>/projects/`:
    `projects/<project>/<sub...>/<fname>`. -/
structure FPath where
  project : String
  sub : List String
  fname : String
  deriving DecidableEq, Repr

/-- The rendered path string (relative to the workspace root), used
    wherever Go compares or sorts path strings. -/
def FPath.render (p : FPath) : String :=
  "projects/" ++ p.project ++ "/" ++ intercalateS "/" p.sub ++ "/" ++ p.fname

/-- Go `store.Task` (embedded `TaskMeta` flattened; `Path` structural). -/
structure Task extends TaskMeta where
  path : FPath
  body : String
  deriving DecidableEq, Repr

/-- Go `store.AddTaskInput`. -/
structure AddTaskInput where
  title : String
  project : String
  column : String
  due : String
  priority : String
  tags : List String
  description : String
  deriving DecidableEq, Repr

/-- Go `store.ListFilter`. -/
structure ListFilter where
  project : String := ""
  column : String := ""
  status : String := ""
  tag : String := ""
  search : String := ""
  all : Bool := false
  deriving DecidableEq, Repr

/-- Go `store.SelectorFilter`. -/
structure SelectorFilter where
  project : String := ""
  column : String := ""
  status : String := ""
  includeArchived : Bool := false
  match_ : String := ""
  deriving DecidableEq, Repr

/-- Match-mode constants (`store.MatchExact` …). -/
def MatchExact : String := "exact"

/-- Go `store.MatchPrefix`. -/
def MatchPrefix : String := "prefix"

/-- Go `store.MatchContains`. -/
def MatchContains : String := "contains"

/-- Go `store.MatchSearch`. -/
def MatchSearch : String := "search"

/-- Modelled from the spec: the constant `store.MatchAuto` is referenced
    by `ideas.go` and the CLI but its defining declaration is not among
    the provided store sources; the CLI documentation
    (`--match auto|exact|prefix|contains|search`) fixes its value. -/
def MatchAuto : String := "auto"

/-- A task file on disk: content is the raw text. -/
structure TFile where
  path : FPath
  content : String
  deriving DecidableEq, Repr

/-- An idea file on disk (`project = ""` means the root `ideas/`
    directory).  `modTime` is the `os.Stat` modification time. -/
structure IFile where
  project : String
  fname : String
  content : String
  modTime : String
  deriving DecidableEq, Repr

/-- The workspace state: configuration, parsed `project.json` records
    (one per project directory; unreadable ones are skipped by the code
    and therefore not represented), task-side files under
    `projects/<slug>/...`, and idea files. -/
structure Disk where
  cfg : Config
  projects : List Project
  files : List TFile
  ideaFiles : List IFile
  deriving DecidableEq, Repr

/-- The three domain error kinds plus the generic I/O error (§7 of the
    spec); `conflict` carries the sorted candidate list
    (`MatchConflictError.Matches`). -/
inductive Err where
  | invalid : Err
  | notFound : Err
  | conflict : String → List Task → Err
  | ioErr : Err
  deriving DecidableEq, Repr

/-- Go `store.IdeaMeta` (timestamps as rendered strings). -/
structure IdeaMeta where
  id : String
  title : String
  project : String
  tags : List String
  createdAt : Option String
  updatedAt : Option String
  deriving DecidableEq, Repr

/-- Go `store.Idea`. -/
structure Idea extends IdeaMeta where
  path : String
  body : String
  deriving DecidableEq, Repr

/-- Go `store.IdeaListFilter`. -/
structure IdeaListFilter where
  project : String := ""
  scope : String := ""
  tag : String := ""
  search : String := ""
  deriving DecidableEq, Repr

/-- Go `store.IdeaSelectorFilter`. -/
structure IdeaSelectorFilter where
  project : String := ""
  scope : String := ""
  match_ : String := ""
  deriving DecidableEq, Repr

/-- Idea-side errors; `conflict` is `IdeaMatchConflictError`. -/
inductive IdeaErr where
  | invalid : IdeaErr
  | notFound : IdeaErr
  | conflict : String → List Idea → IdeaErr
  | ioErr : IdeaErr
  deriving DecidableEq, Repr

/-! ## Task file codec

`writeTaskFile` emits `---\n<yaml>---\n\n<body>`; `parseFrontmatter`
normalises newlines, requires the leading `---` line, splits at the
first `\n---\n` and unmarshals the part between.  The first occurrence
of `\n---\n` is, line-wise, the first line equal to `---` that has a
line index ≥ 1 and is not the final line; `sepSearch` below finds it. -/

/-- Escape-free double-quoted scalar (the documented header format). -/
def quoteS (s : String) : String := "\"" ++ s ++ "\""

/-- Consume a double-quoted scalar body up to the closing quote;
    returns the content and the remaining characters. -/
def takeQuoted : List Char → Option (String × List Char)
  | [] => none
  | c :: rest =>
    if c = '"' then some ("", rest)
    else if c = '\\' then none
    else
      match takeQuoted rest with
      | none => none
      | some p => some (String.mk (c :: p.1.data), p.2)

/-- Parse a full double-quoted scalar. -/
def unquoteS (s : String) : Option String :=
  match s.data with
  | '"' :: rest =>
    match takeQuoted rest with
    | some (content, []) => some content
    | _ => none
  | _ => none

/-- Emit the items of a flow-style string list. -/
def emitItems : List String → String
  | [] => ""
  | [t] => quoteS t
  | t :: ts => quoteS t ++ ", " ++ emitItems ts

/-- Emit a flow-style string list (`[]`, `["a", "b"]`). -/
def emitFlowList (tags : List String) : String := "[" ++ emitItems tags ++ "]"

/-- Parse the items of a flow-style list: the input starts inside the
    first quoted item (after its opening quote); `cur` accumulates the
    current item (reversed), `acc` the finished items (reversed). -/
def parseFlowAux (cur : List Char) (acc : List String) : List Char → Option (List String)
  | [] => none
  | c :: rest =>
    if c = '"' then
      match rest with
      | [']'] => some (String.mk cur.reverse :: acc).reverse
      | ',' :: ' ' :: '"' :: more => parseFlowAux [] (String.mk cur.reverse :: acc) more
      | _ => none
    else if c = '\\' then none
    else parseFlowAux (c :: cur) acc rest

/-- Parse a flow-style string list. -/
def parseFlowList (v : String) : Option (List String) :=
  match v.data with
  | '[' :: ']' :: [] => some []
  | '[' :: '"' :: rest => parseFlowAux [] [] rest
  | _ => none

/-- Emit an optional timestamp (`null` or quoted). -/
def emitTime : Option String → String
  | none => "null"
  | some ts => quoteS ts

/-- Parse an optional timestamp. -/
def parseTime (v : String) : Option (Option String) :=
  if v = "null" then some none
  else match unquoteS v with
    | some ts => some (some ts)
    | none => none

/-- Take the value after a fixed `key: ` position of a header line. -/
def stripKey (key line : String) : Option String :=
  if hasPrefixS line key then some (String.mk (line.data.drop key.data.length))
  else none

/-- Decimal digit parsing accumulator. -/
def parseNatAux (acc : Nat) : List Char → Option Nat
  | [] => some acc
  | c :: cs =>
    if '0' ≤ c ∧ c ≤ '9' then parseNatAux (acc * 10 + (c.toNat - 48)) cs
    else none

/-- Parse a non-empty decimal. -/
def parseNatS (v : String) : Option Nat :=
  match v.data with
  | [] => none
  | _ => parseNatAux 0 v.data

/-- The header lines of `yaml.Marshal(&t.TaskMeta)`, in struct field
    order (the documented task-file header shape). -/
def yamlLines (m : TaskMeta) : List String :=
  [ "schema: " ++ Nat.repr m.schema
  , "id: " ++ quoteS m.id
  , "title: " ++ quoteS m.title
  , "status: " ++ quoteS m.status
  , "project: " ++ quoteS m.project
  , "column: " ++ quoteS m.column
  , "priority: " ++ quoteS m.priority
  , "tags: " ++ emitFlowList m.tags
  , "due: " ++ quoteS m.due
  , "created_at: " ++ emitTime m.createdAt
  , "updated_at: " ++ emitTime m.updatedAt
  , "completed_at: " ++ emitTime m.completedAt
  , "archived_at: " ++ emitTime m.archivedAt ]

/-- `yaml.Marshal` of a `TaskMeta` (always ends with a newline). -/
def yamlMarshalMeta (m : TaskMeta) : String := joinNL (yamlLines m) ++ "\n"

/-- `yaml.Unmarshal` into a `TaskMeta`: accepts exactly the emitted
    header shape (go-yaml accepts more; the store writes nothing else). -/
def yamlUnmarshalMeta (s : String) : Option TaskMeta :=
  match linesOf s with
  | [l1, l2, l3, l4, l5, l6, l7, l8, l9, l10, l11, l12, l13] =>
    match stripKey "schema: " l1 >>= parseNatS,
          stripKey "id: " l2 >>= unquoteS,
          stripKey "title: " l3 >>= unquoteS,
          stripKey "status: " l4 >>= unquoteS,
          stripKey "project: " l5 >>= unquoteS,
          stripKey "column: " l6 >>= unquoteS,
          stripKey "priority: " l7 >>= unquoteS with
    | some schema, some id, some title, some status, some project,
      some column, some priority =>
      match stripKey "tags: " l8 >>= parseFlowList,
            stripKey "due: " l9 >>= unquoteS,
            stripKey "created_at: " l10 >>= parseTime,
            stripKey "updated_at: " l11 >>= parseTime,
            stripKey "completed_at: " l12 >>= parseTime,
            stripKey "archived_at: " l13 >>= parseTime with
      | some tags, some due, some createdAt, some updatedAt,
        some completedAt, some archivedAt =>
        some { schema := schema, id := id, title := title, status := status
             , project := project, column := column, priority := priority
             , tags := tags, due := due, createdAt := createdAt
             , updatedAt := updatedAt, completedAt := completedAt
             , archivedAt := archivedAt }
      | _, _, _, _, _, _ => none
    | _, _, _, _, _, _, _ => none
  | _ => none

/-- Search, from line index 1 of the file, for the first `---` line that
    is not the final line: the line-level position of the first
    `\n---\n` occurrence (see section comment).  Returns the lines
    before and after it. -/
def sepSearch : List String → Option (List String × List String)
  | [] => none
  | [_] => none
  | l :: rest =>
    if l = "---" then some ([], rest)
    else match sepSearch rest with
      | none => none
      | some p => some (l :: p.1, p.2)

/-- Go `parseFrontmatter` (`s` is the newline-normalised input). -/
def parseFrontmatter (b : String) : Except Err (TaskMeta × String) :=
  if ¬ hasPrefixS (normNL b) "---\n" then .error .invalid
  else
    match linesOf (normNL b) with
    | [] => .error .invalid
    | l0 :: rest =>
      match sepSearch rest with
      | none => .error .invalid
      | some (mid, after) =>
        match yamlUnmarshalMeta (trimPrefixS (joinNL (l0 :: mid)) "---\n") with
        | none => .error .invalid
        | some meta =>
          .ok ({ meta with schema := if meta.schema = 0 then 1 else meta.schema },
            joinNL after)

/-- The body text as emitted by `writeTaskFile` (empty when blank,
    otherwise with a final newline ensured). -/
def bodyOut (body : String) : String :=
  if trimSpace body = "" then ""
  else body ++ (if hasSuffixS body "\n" then "" else "\n")

/-- The full file content emitted by Go `writeTaskFile`. -/
def writeTaskContent (t : Task) : String :=
  "---\n" ++ yamlMarshalMeta t.toTaskMeta ++ "---\n\n" ++ bodyOut t.body

/-- A scalar character that needs no quoting machinery: not a quote,
    backslash, or line break. -/
def plainChar (c : Char) : Bool := ¬ (c = '"' ∨ c = '\\' ∨ c = '\n' ∨ c = '\r')

/-- A plain scalar string (see `plainChar`). -/
def plainS (s : String) : Bool := s.data.all plainChar

/-- A string free of carriage returns. -/
def noCR (s : String) : Bool := s.data.all (fun c => ¬ c = '\r')

/-- Validity of a task header for the codec: schema 1 and plain scalar
    fields (the shape every task written by this store has). -/
def validMeta (m : TaskMeta) : Bool :=
  m.schema = 1 && plainS m.id && plainS m.title && plainS m.status &&
    plainS m.project && plainS m.column && plainS m.priority &&
    m.tags.all plainS && plainS m.due &&
    plainS (m.createdAt.getD "") && plainS (m.updatedAt.getD "") &&
    plainS (m.completedAt.getD "") && plainS (m.archivedAt.getD "")

/-- A valid task: valid header and a body free of carriage returns. -/
def validTask (t : Task) : Bool := validMeta t.toTaskMeta && noCR t.body

/-- The characters of an emitted flow list after its first opening
    quote (used to relate `emitItems` and `parseFlowAux`). -/
def tailData : List String → List Char
  | [] => [']']
  | [t] => t.data ++ '"' :: [']']
  | t :: ts => t.data ++ '"' :: ',' :: ' ' :: '"' :: tailData ts

/-! ## String utilities of the store package -/

/-- Go `slugify` character test: `[a-z0-9]` after lowering. -/
def isSlugAlnum (c : Char) : Bool := ('a' ≤ c ∧ c ≤ 'z') ∨ ('0' ≤ c ∧ c ≤ '9')

/-- Go `slugify`. -/
def slugify (s : String) : String :=
  let s := toLowerS (trimSpace s)
  if s = "" then "x"
  else
    let step := fun (st : List Char × Bool) (c : Char) =>
      if isSlugAlnum c then (st.1 ++ [c], false)
      else if st.2 then st else (st.1 ++ ['-'], true)
    let built := (s.data.foldl step ([], false)).1
    let out := trimHyphens (String.mk built)
    if out = "" then "x" else out

/-- Go `slugifyOrDefault`. -/
def slugifyOrDefault (s deflt : String) : String :=
  let s := trimSpace s
  slugify (if s = "" then deflt else s)

/-- The dedupe loop body of Go `dedupeStrings` (`seen` holds the
    lowercase keys already emitted). -/
def dedupeLoop (seen : List String) : List String → List String
  | [] => []
  | s :: rest =>
    let s := trimSpace s
    if s = "" then dedupeLoop seen rest
    else
      let key := toLowerS s
      if seen.contains key then dedupeLoop seen rest
      else s :: dedupeLoop (key :: seen) rest

/-- Go `dedupeStrings`: trim, drop blanks, case-insensitive dedupe
    keeping the first occurrence, then `sort.Strings`. -/
def dedupeStrings (l : List String) : List String := goSort sltB (dedupeLoop [] l)

/-- Go `containsString` (case-insensitive membership). -/
def containsString (list : List String) (v : String) : Bool :=
  let v := trimSpace (toLowerS v)
  list.any (fun s => toLowerS s = v)

/-- Go `normalizePriority`. -/
def normalizePriority (p : String) : String :=
  let p := trimSpace (toLowerS p)
  if p = "low" ∨ p = "l" then "low"
  else if p = "normal" ∨ p = "n" ∨ p = "med" ∨ p = "medium" then "normal"
  else if p = "high" ∨ p = "h" then "high"
  else if p = "urgent" ∨ p = "u" ∨ p = "p0" then "urgent"
  else if p = "" then "normal"
  else p

/-- The identity alphabet (base32, `I,L,O,U` excluded). -/
def idAlphabet : String := "0123456789ABCDEFGHJKMNPQRSTVWXYZ"

/-- Go `isLikelyIDSelector` (the byte-length test uses the UTF-8 byte
    count, as Go `len` does). -/
def isLikelyIDSelector (selector : String) : Bool :=
  let selector := trimSpace selector
  if selector = "" then false
  else if hasPrefixS (toLowerS selector) "tsk_" then true
  else if selector.utf8ByteSize < 8 then false
  else
    let up := toUpperS selector
    up.data.all (fun r => containsRuneS idAlphabet r) &&
      up.data.any (fun r => '0' ≤ r ∧ r ≤ '9')

/-! ## Config lookups and path reconciliation -/

/-- Go `columnByID`. -/
def columnByID (cfg : Config) (id : String) : Option ColumnDef :=
  let id := trimSpace (toLowerS id)
  cfg.columns.find? (fun c => c.id = id)

/-- Go `columnIDByDir`. -/
def columnIDByDir (cfg : Config) (dir : String) : Option String :=
  (cfg.columns.find? (fun c => c.dir = trimSpace dir)).map (fun c => c.id)

/-- Go `projectAndColumnFromPath`: the project directory and, when the
    path lies under `columns/<dir>`, the configured column id of that
    directory (empty when unknown). -/
def projectAndColumnFromPath (cfg : Config) (p : FPath) : String × String :=
  let parts := p.project :: (p.sub ++ [p.fname])
  if parts.length < 3 then ("", "")
  else if parts.getD 1 "" ≠ "columns" then (p.project, "")
  else
    match columnIDByDir cfg (parts.getD 2 "") with
    | some colID => (p.project, colID)
    | none => (p.project, "")

/-- Go `reconcileTaskFromPath`: the path is authoritative for
    project/column/status at read time. -/
def reconcileTaskFromPath (cfg : Config) (t : Task) : Task :=
  let pc := projectAndColumnFromPath cfg t.path
  let t := if pc.1 ≠ "" then { t with project := pc.1 } else t
  if pc.2 ≠ "" then
    let t := { t with column := pc.2 }
    match columnByID cfg pc.2 with
    | some col => { t with status := col.status }
    | none => t
  else t

/-! ## Reading, walking and listing -/

/-- All files below `<root>/projects/` (task files plus per-project idea
    files, which the recursive walks of the Go code also visit). -/
def allProjectFiles (d : Disk) : List TFile :=
  d.files ++ (d.ideaFiles.filter (fun i => i.project ≠ "")).map
    (fun i => { path := { project := i.project, sub := ["ideas"], fname := i.fname }
              , content := i.content })

/-- Go `readTaskFile`. -/
def readTaskFile (d : Disk) (p : FPath) : Except Err Task :=
  match (allProjectFiles d).find? (fun f => f.path = p) with
  | none => .error .ioErr
  | some f =>
    match parseFrontmatter f.content with
    | .error e => .error e
    | .ok md => .ok { toTaskMeta := md.1, path := p, body := md.2 }

/-- Lexicographic order on path component lists: the order in which
    `filepath.WalkDir` visits files below a directory. -/
def listLexLt : List String → List String → Bool
  | [], [] => false
  | [], _ :: _ => true
  | _ :: _, [] => false
  | a :: as, b :: bs =>
    if sltB a b then true else if sltB b a then false else listLexLt as bs

/-- The files visited by `filepath.WalkDir` below
    `projects/<prj>/columns/<cdir>`, in walk order. -/
def walkColumn (d : Disk) (prj cdir : String) : List TFile :=
  goSort (fun f g => listLexLt (f.path.sub.drop 2 ++ [f.path.fname])
                               (g.path.sub.drop 2 ++ [g.path.fname]))
    (d.files.filter (fun f =>
      f.path.project = prj ∧ List.isPrefixOf ["columns", cdir] f.path.sub))

/-- Go `ListProjects` (broken metadata is already absent from the
    model state). -/
def listProjects (d : Disk) : List Project :=
  goSort (fun a b => sltB a.slug b.slug) d.projects

/-- The `ListTasks` comparator (`sort.Slice` body). -/
def taskLess (a b : Task) : Bool :=
  if a.due ≠ "" ∧ b.due ≠ "" ∧ a.due ≠ b.due then sltB a.due b.due
  else
    match a.updatedAt, b.updatedAt with
    | some ua, some ub => sltB ub ua
    | _, _ => sltB a.id b.id

/-- Go `ListTasks`. -/
def listTasks (d : Disk) (f : ListFilter) : List Task :=
  let projects :=
    if trimSpace f.project ≠ "" then [slugifyOrDefault f.project f.project]
    else (listProjects d).map (fun p => p.slug)
  let scanned := projects.flatMap (fun prj =>
    d.cfg.columns.flatMap (fun c =>
      if ¬ f.all ∧ c.id = "archive" then []
      else if f.column ≠ "" ∧ c.id ≠ f.column then []
      else (walkColumn d prj c.dir).filterMap (fun file =>
        if ¬ hasSuffixS (toLowerS file.path.fname) ".md" then none
        else
          match parseFrontmatter file.content with
          | .error _ => none
          | .ok md =>
            let t : Task := { toTaskMeta := md.1, path := file.path, body := md.2 }
            let t := { t with project := prj, column := c.id, status := c.status }
            if f.status ≠ "" ∧ t.status ≠ f.status then none
            else if f.tag ≠ "" ∧ ¬ containsString t.tags f.tag then none
            else if f.search ≠ "" ∧
                ¬ (containsS (toLowerS t.title) (toLowerS f.search) ∨
                   containsS (toLowerS t.body) (toLowerS f.search)) then none
            else some t)))
  goSort taskLess scanned

/-! ## Id-prefix lookup -/

/-- Go `findTasksByPrefix`: id-prefix hits below `projects/`, as sorted
    path strings (`sort.Strings(hits)`). -/
def findTasksByPrefix (d : Disk) (pfx : String) : List FPath :=
  let pfx := trimSpace pfx
  if pfx = "" then []
  else
    let pNorm := toUpperS pfx
    goSort (fun a b => sltB a.render b.render)
      ((allProjectFiles d).filterMap (fun f =>
        if ¬ hasSuffixS (toLowerS f.path.fname) ".md" then none
        else
          match parseFrontmatter f.content with
          | .error _ => none
          | .ok md =>
            if hasPrefixS (toUpperS md.1.id) pNorm then some f.path else none))

/-- The selector-match comparator (`sortSelectorMatches` body): project,
    column, then case-insensitive title; no further tiebreak. -/
def selLess (a b : Task) : Bool :=
  if a.project ≠ b.project then sltB a.project b.project
  else if a.column ≠ b.column then sltB a.column b.column
  else sltB (toLowerS a.title) (toLowerS b.title)

/-- Go `sortSelectorMatches`. -/
def sortSelectorMatches (ms : List Task) : List Task := goSort selLess ms

/-- Go `tasksFromPaths` (same comparator inline). -/
def tasksFromPaths (d : Disk) (paths : List FPath) : List Task :=
  goSort selLess (paths.filterMap (fun p =>
    match readTaskFile d p with
    | .error _ => none
    | .ok t => some (reconcileTaskFromPath d.cfg t)))

/-- Go `GetTaskByPrefix`. -/
def getTaskByPrefix (d : Disk) (pfx : String) : Except Err Task :=
  match findTasksByPrefix d pfx with
  | [] => .error .notFound
  | [p] =>
    match readTaskFile d p with
    | .error e => .error e
    | .ok t => .ok (reconcileTaskFromPath d.cfg t)
  | _ => .error (.conflict "prefix" (tasksFromPaths d (findTasksByPrefix d pfx)))

/-! ## Selector resolution -/

/-- Go `matchesSelectorFilter`. -/
def matchesSelectorFilter (t : Task) (filter : SelectorFilter) : Bool :=
  if filter.project ≠ "" ∧ t.project ≠ filter.project then false
  else if filter.column ≠ "" ∧ t.column ≠ filter.column then false
  else if filter.status ≠ "" ∧ t.status ≠ filter.status then false
  else if ¬ filter.includeArchived ∧ t.status = "archived" then false
  else true

/-- Go `findTasksByPrefixFiltered`. -/
def findTasksByPrefixFiltered (d : Disk) (pfx : String) (filter : SelectorFilter) :
    List Task :=
  let paths := findTasksByPrefix d pfx
  if paths = [] then []
  else
    goSort selLess (paths.filterMap (fun p =>
      match readTaskFile d p with
      | .error _ => none
      | .ok t =>
        let t := reconcileTaskFromPath d.cfg t
        if matchesSelectorFilter t filter then some t else none))

/-- Go `normalizeMatchMode`: every unknown or empty mode (including
    `auto`) falls to `MatchExact`. -/
def normalizeMatchMode (m : String) : String :=
  let m := trimSpace (toLowerS m)
  if m = MatchExact ∨ m = MatchPrefix ∨ m = MatchContains ∨ m = MatchSearch then m
  else MatchExact

/-- Go `normalizeSelectorFilter`. -/
def normalizeSelectorFilter (filter : SelectorFilter) : SelectorFilter :=
  let project := trimSpace filter.project
  let project := if project ≠ "" then slugifyOrDefault project project else project
  let column := trimSpace (toLowerS filter.column)
  let status := trimSpace (toLowerS filter.status)
  let includeArchived :=
    filter.includeArchived ∨ status = "archived" ∨ column = "archive"
  { project := project, column := column, status := status
  , includeArchived := includeArchived, match_ := normalizeMatchMode filter.match_ }

/-- The `ListFilter` built by the title-matching helpers. -/
def selectorListFilter (filter : SelectorFilter) : ListFilter :=
  { project := filter.project, column := filter.column, status := filter.status
  , all := filter.includeArchived }

/-- Go `findTasksByTitleExactFiltered`. -/
def findTasksByTitleExactFiltered (d : Disk) (selector : String)
    (filter : SelectorFilter) : List Task :=
  let tasks := listTasks d (selectorListFilter filter)
  let sel := trimSpace selector
  let selLower := toLowerS sel
  let selSlug := slugify sel
  goSort selLess (tasks.filter (fun t =>
    let title := trimSpace t.title
    title ≠ "" ∧ (toLowerS title = selLower ∨ slugify title = selSlug)))

/-- Go `findTasksByTitlePrefixFiltered`. -/
def findTasksByTitlePrefixFiltered (d : Disk) (selector : String)
    (filter : SelectorFilter) : List Task :=
  let tasks := listTasks d (selectorListFilter filter)
  let sel := trimSpace selector
  let selLower := toLowerS sel
  let selSlug := slugify sel
  goSort selLess (tasks.filter (fun t =>
    let title := trimSpace t.title
    title ≠ "" ∧ (hasPrefixS (toLowerS title) selLower ∨
                  hasPrefixS (slugify title) selSlug)))

/-- Go `findTasksByTitleContainsFiltered`. -/
def findTasksByTitleContainsFiltered (d : Disk) (selector : String)
    (filter : SelectorFilter) : List Task :=
  let tasks := listTasks d (selectorListFilter filter)
  let sel := trimSpace selector
  let selLower := toLowerS sel
  let selSlug := slugify sel
  goSort selLess (tasks.filter (fun t =>
    let title := trimSpace t.title
    title ≠ "" ∧ (containsS (toLowerS title) selLower ∨
                  containsS (slugify title) selSlug)))

/-- Go `findTasksBySearchFiltered`. -/
def findTasksBySearchFiltered (d : Disk) (selector : String)
    (filter : SelectorFilter) : List Task :=
  goSort selLess (listTasks d
    { selectorListFilter filter with search := trimSpace selector })

/-- Go `findTasksByMatchMode`: dispatch on the (already normalised)
    match mode; the default arm is exact matching. -/
def findTasksByMatchMode (d : Disk) (selector : String)
    (filter : SelectorFilter) : List Task :=
  if filter.match_ = MatchSearch then findTasksBySearchFiltered d selector filter
  else if filter.match_ = MatchPrefix then findTasksByTitlePrefixFiltered d selector filter
  else if filter.match_ = MatchContains then findTasksByTitleContainsFiltered d selector filter
  else findTasksByTitleExactFiltered d selector filter

/-- Go `resolveSelectorCandidates`. -/
def resolveSelectorCandidates (d : Disk) (selector : String)
    (filter : SelectorFilter) : List Task :=
  let filter := normalizeSelectorFilter filter
  if isLikelyIDSelector selector then
    let ms := findTasksByPrefixFiltered d selector filter
    if ms ≠ [] then ms else findTasksByMatchMode d selector filter
  else
    let ms := findTasksByMatchMode d selector filter
    if ms ≠ [] then ms else findTasksByPrefixFiltered d selector filter

/-- Go `GetTaskBySelectorFiltered`. -/
def getTaskBySelectorFiltered (d : Disk) (selector : String)
    (filter : SelectorFilter) : Except Err Task :=
  let selector := trimSpace selector
  if selector = "" then .error .invalid
  else
    match resolveSelectorCandidates d selector filter with
    | [] => .error .notFound
    | [t] => .ok t
    | ms => .error (.conflict "selector" ms)

/-- Go `ResolveTasks`. -/
def resolveTasks (d : Disk) (selector : String) (filter : SelectorFilter) :
    Except Err (List Task) :=
  let selector := trimSpace selector
  if selector = "" then .error .invalid
  else .ok (resolveSelectorCandidates d selector filter)

/-! ## Mutating operations -/

/-- Atomic write of a task file: replace (or create) the entry at the
    task path with the emitted content. -/
def writeTaskToDisk (d : Disk) (t : Task) : Disk :=
  { d with files := (d.files.filter (fun f => f.path ≠ t.path)) ++
      [{ path := t.path, content := writeTaskContent t }] }

/-- Go `CreateProject` (`id` is the generated ULID; idempotent). -/
def createProject (d : Disk) (now id name : String) : Except Err (Disk × Project) :=
  let name := trimSpace name
  if name = "" then .error .invalid
  else
    let slug := slugify name
    match d.projects.find? (fun q => q.slug = slug) with
    | some existing => .ok (d, existing)
    | none =>
      let p : Project :=
        { schema := 1, id := "prj_" ++ id, name := name, slug := slug
        , createdAt := now, updatedAt := now }
      .ok ({ d with projects := d.projects ++ [p] }, p)

/-- Go `AddTask` (`prjId`/`taskId` are the generated ULIDs). -/
def addTask (d : Disk) (now prjId taskId : String) (input : AddTaskInput) :
    Except Err (Disk × Task) :=
  if trimSpace input.title = "" then .error .invalid
  else
    let projectName := if trimSpace input.project = "" then "Personal"
                       else trimSpace input.project
    let projectSlug := slugify projectName
    match createProject d now prjId projectName with
    | .error e => .error e
    | .ok dp =>
      let d := dp.1
      let colID := if trimSpace input.column = "" then "inbox"
                   else trimSpace input.column
      match columnByID d.cfg colID with
      | none => .error .invalid
      | some col =>
        let id := "tsk_" ++ taskId
        let meta : TaskMeta :=
          { schema := 1, id := id, title := trimSpace input.title
          , status := col.status, project := projectSlug, column := colID
          , priority := normalizePriority input.priority
          , tags := dedupeStrings input.tags, due := trimSpace input.due
          , createdAt := some now, updatedAt := some now
          , completedAt := none, archivedAt := none }
        let body := if trimSpace input.description ≠ ""
                    then "## Notes\n\n" ++ trimSpace input.description ++ "\n"
                    else ""
        let fname := id ++ "__" ++ slugify meta.title ++ ".md"
        let path : FPath := { project := projectSlug, sub := ["columns", col.dir]
                            , fname := fname }
        let task : Task := { toTaskMeta := meta, path := path, body := body }
        .ok (writeTaskToDisk d task, task)

/-- Go `MoveTask`. -/
def moveTask (d : Disk) (now pfx toColumnID : String) : Except Err (Disk × Task) :=
  match getTaskByPrefix d pfx with
  | .error e => .error e
  | .ok task =>
    let task := reconcileTaskFromPath d.cfg task
    match columnByID d.cfg toColumnID with
    | none => .error .invalid
    | some col =>
      let projectSlug := trimSpace task.project
      if projectSlug = "" then .error .invalid
      else
        let oldPath := task.path
        let newPath : FPath :=
          { project := projectSlug, sub := ["columns", col.dir]
          , fname := oldPath.fname }
        let oldContent := ((allProjectFiles d).find? (fun f => f.path = oldPath)).map
          (fun f => f.content)
        let d := { d with files :=
          (d.files.filter (fun f => f.path ≠ oldPath ∧ f.path ≠ newPath)) ++
            [{ path := newPath, content := oldContent.getD "" }] }
        let task := { task with
          path := newPath, column := toColumnID, status := col.status
        , updatedAt := some now
        , completedAt := if col.status = "done" then some now else none
        , archivedAt := if col.status = "archived" then some now else none }
        .ok (writeTaskToDisk d task, task)

/-- Go `AddNote` (note the absence of any blank-text validation). -/
def addNote (d : Disk) (now pfx note : String) : Except Err (Disk × Task) :=
  match getTaskByPrefix d pfx with
  | .error e => .error e
  | .ok task =>
    let task := { task with updatedAt := some now }
    let entry := "- " ++ now ++ " — " ++ trimSpace note ++ "\n"
    let task := { task with body :=
      (if task.body = "" then "## Notes\n\n" ++ entry
       else trimRightNL task.body ++ "\n" ++ entry) }
    .ok (writeTaskToDisk d task, task)

/-! ## Idea store -/

/-- Generic split at whitespace (Go `strings.Fields` keeps only the
    non-empty pieces). -/
def splitPred (p : Char → Bool) : List Char → List (List Char)
  | [] => [[]]
  | c :: cs =>
    match splitPred p cs with
    | [] => [[]]
    | l :: ls => if p c then [] :: l :: ls else (c :: l) :: ls

/-- Go `strings.Fields`. -/
def fieldsS (s : String) : List String :=
  ((splitPred Char.isWhitespace s.data).filter (fun l => l ≠ [])).map String.mk

/-- Split at the first occurrence of a separator
    (`strings.SplitN(s, sep, 2)` when it finds one). -/
def splitFirst : List Char → List Char → Option (List Char × List Char)
  | cs, sep =>
    if sep.isPrefixOf cs then some ([], cs.drop sep.length)
    else
      match cs with
      | [] => none
      | c :: rest =>
        match splitFirst rest sep with
        | none => none
        | some p => some (c :: p.1, p.2)
termination_by cs _ => cs.length

/-- Go `filepath.Ext`. -/
def extOf (name : String) : String :=
  let afterDotRev := name.data.reverse.takeWhile (fun c => c ≠ '.')
  if afterDotRev.length = name.data.length then ""
  else String.mk ('.' :: afterDotRev.reverse)

/-- Go `strings.TrimSuffix`. -/
def trimSuffixS (s suf : String) : String :=
  if hasSuffixS s suf then String.mk (s.data.take (s.data.length - suf.data.length))
  else s

/-- Go `normalizeIdeaTitle`. -/
def normalizeIdeaTitle (line : String) : String :=
  let line := trimSpace line
  if line = "" then ""
  else if hasPrefixS (toLowerS line) "title:" then
    trimSpace (String.mk (line.data.drop 6))
  else if hasPrefixS line "#" then
    trimSpace (trimLeftCut line "#")
  else line

/-- Go `isIdeaTagsLine`. -/
def isIdeaTagsLine (line : String) : Bool :=
  let lower := toLowerS (trimSpace line)
  hasPrefixS lower "tags:" ∨ hasPrefixS lower "tag:"

/-- The characters allowed in an inline tag token (Go `isIdeaTagChar`). -/
def isIdeaTagChar (c : Char) : Bool :=
  ('a' ≤ c ∧ c ≤ 'z') ∨ ('A' ≤ c ∧ c ≤ 'Z') ∨ ('0' ≤ c ∧ c ≤ '9') ∨ c = '-' ∨ c = '_'

/-- Go `cleanIdeaTag`. -/
def cleanIdeaTag (tag : String) : String :=
  let tag := trimSpace tag
  if tag = "" then "" else trimSpace (trimLeftCut tag "#@+")

/-- Go `parseTagList`. -/
def parseTagList (value : String) : List String :=
  let value := String.mk (value.data.map (fun c => if c = ',' then ' ' else c))
  ((fieldsS value).map cleanIdeaTag).filter (fun f => f ≠ "")

/-- The remainder after the first colon of a line. -/
def afterFirstColon : List Char → Option (List Char)
  | [] => none
  | c :: rest => if c = ':' then some rest else afterFirstColon rest

/-- Go `parseTagsLine`. -/
def parseTagsLine (line : String) : List String :=
  let trimmed := trimSpace line
  if trimmed = "" then []
  else
    match afterFirstColon trimmed.data with
    | none => []
    | some rest => parseTagList (trimSpace (String.mk rest))

/-- Go `normalizeIdeaTags`. -/
def normalizeIdeaTags (tags : List String) : List String :=
  if tags = [] then []
  else dedupeStrings ((tags.map cleanIdeaTag).filter (fun t => t ≠ ""))

/-- Go `isIdeaHeadingLine`. -/
def isIdeaHeadingLine (line : String) : Bool :=
  let trimmed := trimLeftCut line " \t"
  if ¬ hasPrefixS trimmed "#" then false
  else
    match trimmed.data.dropWhile (fun c => c = '#') with
    | ' ' :: _ => true
    | _ => false

/-- `dropWhile` never lengthens a list (used for termination below). -/
theorem dropWhile_len_le (p : α → Bool) :
    ∀ l : List α, (l.dropWhile p).length ≤ l.length := by
  intro l
  induction l with
  | nil => simp
  | cons c cs ih =>
    by_cases h : p c
    · simp [List.dropWhile, h]
      omega
    · simp [List.dropWhile, h]

/-- The byte scan of Go `extractIdeaTokensFromLine`, carried out at
    character level (`prev` is the previous character, if any). -/
def extractTokensAux (prev : Option Char) : List Char → List String
  | [] => []
  | c :: rest =>
    if (c = '#' ∨ c = '@') ∧ (match prev with
        | some p => (¬ isIdeaTagChar p : Bool)
        | none => true) = true then
      match rest with
      | [] => []
      | c2 :: rest2 =>
        if isIdeaTagChar c2 then
          let tok := (c2 :: rest2).takeWhile isIdeaTagChar
          String.mk tok ::
            extractTokensAux (some (tok.getLastD ' '))
              ((c2 :: rest2).dropWhile isIdeaTagChar)
        else extractTokensAux (some c) (c2 :: rest2)
    else extractTokensAux (some c) rest
termination_by cs => cs.length
decreasing_by
  all_goals simp
  all_goals exact Nat.lt_of_le_of_lt (dropWhile_len_le _ _) (by simp)

/-- Go `extractIdeaTokensFromLine`. -/
def extractIdeaTokensFromLine (line : String) : List String :=
  extractTokensAux none line.data

/-- The fence-aware line scan of Go `extractIdeaInlineTags`. -/
def fenceScan (inFence : Bool) (fence : String) : List String → List String
  | [] => []
  | line :: rest =>
    let trimmed := trimSpace line
    if hasPrefixS trimmed "```" ∨ hasPrefixS trimmed "~~~" then
      if ¬ inFence then fenceScan true (String.mk (trimmed.data.take 3)) rest
      else if fence = "" ∨ hasPrefixS trimmed fence then fenceScan false "" rest
      else fenceScan inFence fence rest
    else if inFence then fenceScan inFence fence rest
    else if isIdeaHeadingLine line then fenceScan inFence fence rest
    else extractIdeaTokensFromLine line ++ fenceScan inFence fence rest

/-- Go `extractIdeaInlineTags`. -/
def extractIdeaInlineTags (text : String) : List String :=
  fenceScan false "" (linesOf (normNL text))

/-- Go `inferIdeaTags`. -/
def inferIdeaTags (title body : String) (explicit : List String) : List String :=
  dedupeStrings (explicit ++ extractIdeaInlineTags title ++ extractIdeaInlineTags body)

/-- The title-scanning first loop of `parseIdeaContent`: skip blanks,
    collect leading tags lines, stop at the title line. -/
def scanTitle (acc : List String) : List String →
    (List String × Option (String × List String))
  | [] => (acc, none)
  | line :: rest =>
    let trimmed := trimSpace line
    if trimmed = "" then scanTitle acc rest
    else if isIdeaTagsLine trimmed then scanTitle (acc ++ parseTagsLine trimmed) rest
    else (acc, some (normalizeIdeaTitle trimmed, rest))

/-- The second loop of `parseIdeaContent`: after the title, consume
    further tags lines and blank lines up to the body. -/
def scanAfterTitle (acc : List String) : List String → (List String × List String)
  | [] => (acc, [])
  | line :: rest =>
    if isIdeaTagsLine line then scanAfterTitle (acc ++ parseTagsLine line) rest
    else if trimSpace line = "" then scanAfterTitle acc rest
    else (acc, line :: rest)

/-- Go `parseIdeaContent`: heuristic (title, tags, body) extraction. -/
def parseIdeaContent (text : String) : String × List String × String :=
  let s := normNL text
  let lines := linesOf s
  match scanTitle [] lines with
  | (tags, none) => ("", tags, trimRightNL s)
  | (tags, some (title, rest)) =>
    let p := scanAfterTitle tags rest
    let body := trimRightNL (joinNL p.2)
    let allTags := p.1 ++ extractIdeaInlineTags title ++ extractIdeaInlineTags body
    (title, dedupeStrings allTags, body)

/-- Go `formatIdeaContent`. -/
def formatIdeaContent (title : String) (tags : List String) (body : String) : String :=
  let title := normalizeIdeaTitle title
  let title := if title = "" then "(untitled)" else title
  let body := trimRightNL body
  title ++ "\n" ++
    (if tags ≠ [] then "tags: " ++ intercalateS ", " tags ++ "\n" else "") ++
    (if body ≠ "" then "\n" ++ body ++ "\n" else "")

/-- Go `writeIdeaFile` content (tags are re-inferred before writing). -/
def writeIdeaContent (title : String) (tags : List String) (body : String) : String :=
  formatIdeaContent title (inferIdeaTags title body tags) body

/-- Go `isIdeaFile`. -/
def isIdeaFile (name : String) : Bool :=
  if hasPrefixS name "." then false
  else
    let ext := toLowerS (extOf name)
    ext = ".md" ∨ ext = ".markdown" ∨ ext = ".txt"

/-- Go `ideaIDFromFilename`. -/
def ideaIDFromFilename (name : String) : String :=
  let base := trimSuffixS name (extOf name)
  if hasPrefixS (toLowerS base) "idea_" then
    match splitFirst base.data "__".data with
    | some p => String.mk p.1
    | none => base
  else base

/-- Go `ideaTitleFromFilename`. -/
def ideaTitleFromFilename (name : String) : String :=
  let base := trimSuffixS name (extOf name)
  let base := if hasPrefixS (toLowerS base) "idea_" then String.mk (base.data.drop 5)
              else base
  let base := match splitFirst base.data "__".data with
              | some p => String.mk p.2
              | none => base
  let base := String.mk (base.data.map (fun c =>
    if c = '-' ∨ c = '_' then ' ' else c))
  trimSpace base

/-- The rendered path of an idea file (root `ideas/` or the project
    `ideas/` directory). -/
def ideaPathRender (i : IFile) : String :=
  if i.project = "" then "ideas/" ++ i.fname
  else "projects/" ++ i.project ++ "/ideas/" ++ i.fname

/-- Go `readIdeaFile` (the file exists in the model, so the `os.Stat`
    fallback branch cannot fire). -/
def readIdeaFile (i : IFile) : Idea :=
  let parsed := parseIdeaContent i.content
  let title := if parsed.1 = "" then ideaTitleFromFilename i.fname else parsed.1
  { id := ideaIDFromFilename i.fname, title := title, project := i.project
  , tags := dedupeStrings parsed.2.1
  , createdAt := some i.modTime, updatedAt := some i.modTime
  , path := ideaPathRender i, body := parsed.2.2 }

/-- Go `normalizeIdeaScope`. -/
def normalizeIdeaScope (scope project : String) : String :=
  let scope := trimSpace (toLowerS scope)
  if scope = "root" ∨ scope = "project" ∨ scope = "all" then scope
  else if trimSpace project ≠ "" then "project"
  else "root"

/-- Go `normalizeIdeaSelectorFilter`. -/
def normalizeIdeaSelectorFilter (filter : IdeaSelectorFilter) : IdeaSelectorFilter :=
  let project := trimSpace filter.project
  let project := if project ≠ "" then slugifyOrDefault project project else project
  { project := project, scope := normalizeIdeaScope filter.scope project
  , match_ := normalizeMatchMode filter.match_ }

/-- Go `ideaDirs`, reduced to the project keys of the directories it
    returns (`""` is the root `ideas/` directory). -/
def ideaDirs (d : Disk) (scope project : String) : Except IdeaErr (List String) :=
  let scope := normalizeIdeaScope scope project
  let project := trimSpace project
  let project := if project ≠ "" then slugifyOrDefault project project else project
  if scope = "root" then .ok [""]
  else if scope = "project" then
    if project = "" then .error .invalid else .ok [project]
  else if scope = "all" then
    if project ≠ "" then .ok ["", project]
    else .ok ("" :: (listProjects d).map (fun p => p.slug))
  else .ok [""]

/-- Go `ideaPaths`: the idea files of the scoped directories, sorted by
    path string. -/
def ideaPaths (d : Disk) (scope project : String) : Except IdeaErr (List IFile) :=
  match ideaDirs d scope project with
  | .error e => .error e
  | .ok dirs =>
    .ok (goSort (fun a b => sltB (ideaPathRender a) (ideaPathRender b))
      (dirs.flatMap (fun key =>
        d.ideaFiles.filter (fun i => i.project = key ∧ isIdeaFile i.fname))))

/-- Go `loadIdeas`. -/
def loadIdeas (d : Disk) (filter : IdeaSelectorFilter) : Except IdeaErr (List Idea) :=
  match ideaPaths d filter.scope filter.project with
  | .error e => .error e
  | .ok paths => .ok (paths.map readIdeaFile)

/-- The `sortIdeaMatches` comparator. -/
def ideaSelLess (a b : Idea) : Bool :=
  if a.project ≠ b.project then sltB a.project b.project
  else if a.title ≠ b.title then sltB (toLowerS a.title) (toLowerS b.title)
  else sltB a.id b.id

/-- Go `sortIdeaMatches`. -/
def sortIdeaMatches (ms : List Idea) : List Idea := goSort ideaSelLess ms

/-- Go `findIdeasByTitleExactFiltered`. -/
def findIdeasByTitleExactFiltered (d : Disk) (selector : String)
    (filter : IdeaSelectorFilter) : Except IdeaErr (List Idea) :=
  match loadIdeas d filter with
  | .error e => .error e
  | .ok ideas =>
    let needle := toLowerS (trimSpace selector)
    .ok (ideas.filter (fun i => toLowerS (trimSpace i.title) = needle))

/-- Go `findIdeasByTitlePrefixFiltered`. -/
def findIdeasByTitlePrefixFiltered (d : Disk) (selector : String)
    (filter : IdeaSelectorFilter) : Except IdeaErr (List Idea) :=
  match loadIdeas d filter with
  | .error e => .error e
  | .ok ideas =>
    let needle := toLowerS (trimSpace selector)
    .ok (ideas.filter (fun i => hasPrefixS (toLowerS (trimSpace i.title)) needle))

/-- Go `findIdeasByTitleContainsFiltered`. -/
def findIdeasByTitleContainsFiltered (d : Disk) (selector : String)
    (filter : IdeaSelectorFilter) : Except IdeaErr (List Idea) :=
  match loadIdeas d filter with
  | .error e => .error e
  | .ok ideas =>
    let needle := toLowerS (trimSpace selector)
    .ok (ideas.filter (fun i => containsS (toLowerS (trimSpace i.title)) needle))

/-- Go `findIdeasBySearchFiltered`. -/
def findIdeasBySearchFiltered (d : Disk) (selector : String)
    (filter : IdeaSelectorFilter) : Except IdeaErr (List Idea) :=
  match loadIdeas d filter with
  | .error e => .error e
  | .ok ideas =>
    let needle := toLowerS (trimSpace selector)
    .ok (ideas.filter (fun i =>
      containsS (toLowerS i.title) needle ∨ containsS (toLowerS i.body) needle))

/-- Go `findIdeasByPrefixFiltered`. -/
def findIdeasByPrefixFiltered (d : Disk) (pfx : String)
    (filter : IdeaSelectorFilter) : Except IdeaErr (List Idea) :=
  match ideaPaths d filter.scope filter.project with
  | .error e => .error e
  | .ok paths =>
    let pfx := trimSpace pfx
    if pfx = "" then .ok []
    else
      let needle := toUpperS pfx
      .ok (sortIdeaMatches ((paths.map readIdeaFile).filter (fun i =>
        hasPrefixS (toUpperS i.id) needle)))

/-- Go `findIdeasByMatchMode`: the idea side has an explicit `MatchAuto`
    cascade (exact → prefix → contains → search); every other mode runs
    a single stage. -/
def findIdeasByMatchMode (d : Disk) (selector : String)
    (filter : IdeaSelectorFilter) : Except IdeaErr (List Idea) :=
  if filter.match_ = MatchAuto then
    let selector := trimSpace selector
    if selector = "" then .ok []
    else
      match findIdeasByTitleExactFiltered d selector filter with
      | .error e => .error e
      | .ok ms =>
        if ms ≠ [] then .ok ms
        else
          match findIdeasByTitlePrefixFiltered d selector filter with
          | .error e => .error e
          | .ok ms =>
            if ms ≠ [] then .ok ms
            else
              match findIdeasByTitleContainsFiltered d selector filter with
              | .error e => .error e
              | .ok ms =>
                if ms ≠ [] then .ok ms
                else findIdeasBySearchFiltered d selector filter
  else if filter.match_ = MatchSearch then findIdeasBySearchFiltered d selector filter
  else if filter.match_ = MatchPrefix then findIdeasByTitlePrefixFiltered d selector filter
  else if filter.match_ = MatchContains then findIdeasByTitleContainsFiltered d selector filter
  else findIdeasByTitleExactFiltered d selector filter

/-- Go `isLikelyIdeaIDSelector`. -/
def isLikelyIdeaIDSelector (selector : String) : Bool :=
  let selector := trimSpace selector
  if selector = "" then false
  else if hasPrefixS (toLowerS selector) "idea_" then true
  else if selector.utf8ByteSize < 8 then false
  else
    let up := toUpperS selector
    up.data.all (fun r => containsRuneS idAlphabet r) &&
      up.data.any (fun r => '0' ≤ r ∧ r ≤ '9')

/-- Go `resolveIdeaSelectorCandidates`. -/
def resolveIdeaSelectorCandidates (d : Disk) (selector : String)
    (filter : IdeaSelectorFilter) : Except IdeaErr (List Idea) :=
  let filter := normalizeIdeaSelectorFilter filter
  if isLikelyIdeaIDSelector selector then
    match findIdeasByPrefixFiltered d selector filter with
    | .error e => .error e
    | .ok ms =>
      if ms ≠ [] then .ok ms else findIdeasByMatchMode d selector filter
  else
    match findIdeasByMatchMode d selector filter with
    | .error e => .error e
    | .ok ms =>
      if ms ≠ [] then .ok ms else findIdeasByPrefixFiltered d selector filter

/-- Go `GetIdeaBySelectorFiltered`. -/
def getIdeaBySelectorFiltered (d : Disk) (selector : String)
    (filter : IdeaSelectorFilter) : Except IdeaErr Idea :=
  let selector := trimSpace selector
  if selector = "" then .error .invalid
  else
    match resolveIdeaSelectorCandidates d selector filter with
    | .error e => .error e
    | .ok [] => .error .notFound
    | .ok [i] => .ok i
    | .ok ms => .error (.conflict "selector" ms)

/-- Go `ResolveIdeas`. -/
def resolveIdeas (d : Disk) (selector : String)
    (filter : IdeaSelectorFilter) : Except IdeaErr (List Idea) :=
  let selector := trimSpace selector
  if selector = "" then .error .invalid
  else resolveIdeaSelectorCandidates d selector filter

/-! ## Claim-level notions and concrete fixtures -/

/-- A well-formed configuration: distinct, normalised column ids and
    directory names (the default configuration qualifies). -/
def cfgWF (cfg : Config) : Prop :=
  (cfg.columns.map (fun c => c.id)).Nodup ∧
  (cfg.columns.map (fun c => c.dir)).Nodup ∧
  (∀ c ∈ cfg.columns, trimSpace (toLowerS c.id) = c.id) ∧
  (∀ c ∈ cfg.columns, trimSpace c.dir = c.dir) ∧
  (∀ c ∈ cfg.columns, c.id ≠ "")

/-- The column whose directory contains a file path, if any: the file
    must lie below `columns/<dir>` for a configured `dir`. -/
def dirColumn (cfg : Config) (p : FPath) : Option ColumnDef :=
  if p.sub.getD 0 "" = "columns" ∧ 2 ≤ p.sub.length then
    cfg.columns.find? (fun c => c.dir = p.sub.getD 1 "")
  else none

/-- The id-like selector shape in the words of the spec (for comparison
    with `isLikelyIDSelector`): starts with the `tsk_` prefix
    case-insensitively, or is at least 8 characters long, every
    character uppercased belongs to the identity alphabet, and at least
    one character is a digit. -/
def claimIdLikeShape (sel : String) : Prop :=
  hasPrefixS (toLowerS (trimSpace sel)) "tsk_" = true ∨
  (8 ≤ (trimSpace sel).data.length ∧
   (∀ c ∈ (trimSpace sel).data, Char.toUpper c ∈ idAlphabet.data) ∧
   (∃ c ∈ (trimSpace sel).data, '0' ≤ c ∧ c ≤ '9'))

/-- Go `defaultConfig`. -/
def defaultConfig : Config :=
  { schema := 1
  , columns :=
    [ { id := "inbox", name := "Inbox", dir := "00-inbox", status := "open" }
    , { id := "todo", name := "To Do", dir := "01-todo", status := "open" }
    , { id := "doing", name := "Doing", dir := "02-doing", status := "doing" }
    , { id := "blocked", name := "Blocked", dir := "03-blocked", status := "blocked" }
    , { id := "done", name := "Done", dir := "04-done", status := "done" }
    , { id := "archive", name := "Archive", dir := "99-archive", status := "archived" } ] }

/-- Fixture: the `work` project record. -/
def prjWork : Project :=
  { schema := 1, id := "prj_01AAAA", name := "Work", slug := "work"
  , createdAt := "2026-01-01T00:00:00Z", updatedAt := "2026-01-01T00:00:00Z" }

/-- Fixture: a task titled `Draft proposal v2` in the work inbox. -/
def tDraftV2 : Task :=
  { schema := 1, id := "tsk_01HZZA", title := "Draft proposal v2", status := "open"
  , project := "work", column := "inbox", priority := "normal", tags := ["client"]
  , due := "", createdAt := some "2026-01-01T00:00:00Z"
  , updatedAt := some "2026-01-02T00:00:00Z"
  , completedAt := none, archivedAt := none
  , path := { project := "work", sub := ["columns", "00-inbox"]
            , fname := "tsk_01HZZA__draft-proposal-v2.md" }
  , body := "hello\n" }

/-- Fixture: a store holding only `Draft proposal v2`. -/
def diskDraft : Disk :=
  { cfg := defaultConfig, projects := [prjWork]
  , files := [{ path := tDraftV2.path, content := writeTaskContent tDraftV2 }]
  , ideaFiles := [] }

/-- Fixture: the empty workspace. -/
def diskEmpty : Disk :=
  { cfg := defaultConfig, projects := [], files := [], ideaFiles := [] }

/-- Fixture: `tDraftV2` after a move into the `done` column (the body
    carries the leading newline the codec introduces on read-back). -/
def tMovedDone : Task :=
  { schema := 1, id := "tsk_01HZZA", title := "Draft proposal v2", status := "done"
  , project := "work", column := "done", priority := "normal", tags := ["client"]
  , due := "", createdAt := some "2026-01-01T00:00:00Z"
  , updatedAt := some "2026-02-01T00:00:00Z"
  , completedAt := some "2026-02-01T00:00:00Z", archivedAt := none
  , path := { project := "work", sub := ["columns", "04-done"]
            , fname := "tsk_01HZZA__draft-proposal-v2.md" }
  , body := "\nhello\n" }

/-- Fixture: the store after that move. -/
def diskMovedDone : Disk :=
  { cfg := defaultConfig, projects := [prjWork]
  , files := [{ path := tMovedDone.path, content := writeTaskContent tMovedDone }]
  , ideaFiles := [] }

/-- Fixture: `tMovedDone` after a second move into the `todo` column
    (status `open`; another newline accumulates in the body). -/
def tMovedTodo : Task :=
  { schema := 1, id := "tsk_01HZZA", title := "Draft proposal v2", status := "open"
  , project := "work", column := "todo", priority := "normal", tags := ["client"]
  , due := "", createdAt := some "2026-01-01T00:00:00Z"
  , updatedAt := some "2026-02-02T00:00:00Z"
  , completedAt := none, archivedAt := none
  , path := { project := "work", sub := ["columns", "01-todo"]
            , fname := "tsk_01HZZA__draft-proposal-v2.md" }
  , body := "\n\nhello\n" }

/-- Fixture: the store after the second move. -/
def diskMovedTodo : Disk :=
  { cfg := defaultConfig, projects := [prjWork]
  , files := [{ path := tMovedTodo.path, content := writeTaskContent tMovedTodo }]
  , ideaFiles := [] }

/-- The `ListTasks` comparator in the words of the spec (for comparison
    with `taskLess`): due date ascending with an empty due placed last
    whenever the due dates differ, otherwise `updatedAt` descending,
    otherwise id ascending. -/
def specTaskLess (a b : Task) : Bool :=
  if a.due ≠ b.due then
    if a.due = "" then false
    else if b.due = "" then true
    else sltB a.due b.due
  else
    match a.updatedAt, b.updatedAt with
    | some ua, some ub => if ua ≠ ub then sltB ub ua else sltB a.id b.id
    | _, _ => sltB a.id b.id

/-- Fixture: a task with no due date but a recent `updatedAt`. -/
def tNoDue : Task :=
  { schema := 1, id := "tsk_01NODU", title := "A task", status := "open"
  , project := "work", column := "inbox", priority := "normal", tags := []
  , due := "", createdAt := some "2026-01-01T00:00:00Z"
  , updatedAt := some "2026-05-01T00:00:00Z"
  , completedAt := none, archivedAt := none
  , path := { project := "work", sub := ["columns", "00-inbox"]
            , fname := "tsk_01NODU__a-task.md" }
  , body := "" }

/-- Fixture: a task with a due date but an older `updatedAt`. -/
def tDueB : Task :=
  { schema := 1, id := "tsk_01DUEB", title := "B task", status := "open"
  , project := "work", column := "inbox", priority := "normal", tags := []
  , due := "2026-03-01", createdAt := some "2026-01-01T00:00:00Z"
  , updatedAt := some "2026-01-01T00:00:00Z"
  , completedAt := none, archivedAt := none
  , path := { project := "work", sub := ["columns", "00-inbox"]
            , fname := "tsk_01DUEB__b-task.md" }
  , body := "" }

/-- Fixture: a store holding the two due-date fixture tasks. -/
def diskDue : Disk :=
  { cfg := defaultConfig, projects := [prjWork]
  , files := [ { path := tNoDue.path, content := writeTaskContent tNoDue }
             , { path := tDueB.path, content := writeTaskContent tDueB } ]
  , ideaFiles := [] }

/-- The task as `listTasks` returns it from the draft store (the codec
    read-back prepends a newline to the body). -/
def tDraftListed : Task := { tDraftV2 with body := "\nhello\n" }

/-- Fixture: a task titled `Same title` with a large id and a recent
    `updatedAt`. -/
def tSameZ : Task :=
  { schema := 1, id := "tsk_01ZZZZ", title := "Same title", status := "open"
  , project := "work", column := "inbox", priority := "normal", tags := []
  , due := "", createdAt := some "2026-01-01T00:00:00Z"
  , updatedAt := some "2026-05-01T00:00:00Z"
  , completedAt := none, archivedAt := none
  , path := { project := "work", sub := ["columns", "00-inbox"]
            , fname := "tsk_01ZZZZ__same-title.md" }
  , body := "" }

/-- Fixture: a task titled `Same title` with a small id and an older
    `updatedAt`. -/
def tSameA : Task :=
  { schema := 1, id := "tsk_01AAAA", title := "Same title", status := "open"
  , project := "work", column := "inbox", priority := "normal", tags := []
  , due := "", createdAt := some "2026-01-01T00:00:00Z"
  , updatedAt := some "2026-01-01T00:00:00Z"
  , completedAt := none, archivedAt := none
  , path := { project := "work", sub := ["columns", "00-inbox"]
            , fname := "tsk_01AAAA__same-title.md" }
  , body := "" }

/-- Fixture: a store holding the two same-titled tasks. -/
def diskSame : Disk :=
  { cfg := defaultConfig, projects := [prjWork]
  , files := [ { path := tSameZ.path, content := writeTaskContent tSameZ }
             , { path := tSameA.path, content := writeTaskContent tSameA } ]
  , ideaFiles := [] }

/-- Fixture: an `addTask` input carrying mixed-case duplicate tags. -/
def inpTags : AddTaskInput :=
  { title := "Tagged", project := "", column := "", due := ""
  , priority := "", tags := ["Alpha", "alpha", "BETA"], description := "" }

/-- Fixture: the store and task produced by adding `inpTags` to the
    empty workspace. -/
def addTagsRes : Disk × Task :=
  match addTask diskEmpty "2026-01-01T00:00:00Z" "01PRJ" "01TSK" inpTags with
  | .ok r => r
  | .error _ => (diskEmpty, tDraftV2)

/-! ## General lemmas about the sort model -/

/-- One insertion step is a permutation. -/
theorem insRight_perm (lt : α → α → Bool) (x : α) :
    ∀ l : List α, (insRight lt x l).Perm (x :: l) := by
  intro l
  induction l with
  | nil => simp [insRight]
  | cons y ys ih =>
    simp only [insRight]
    by_cases h : lt x y
    · simp only [h, if_true]
      exact (ih.cons y).trans (List.Perm.swap x y ys)
    · simp [h]

/-- The insertion fold is a permutation of input plus accumulator. -/
theorem goSortAux_perm (lt : α → α → Bool) :
    ∀ l racc : List α,
      (l.foldl (fun racc x => insRight lt x racc) racc).Perm (l ++ racc) := by
  intro l
  induction l with
  | nil => intro racc; simp
  | cons x rest ih =>
    intro racc
    simp only [List.foldl_cons, List.cons_append]
    exact (ih (insRight lt x racc)).trans
      (((insRight_perm lt x racc).append_left rest).trans List.perm_middle)

/-- `goSort` permutes its input. -/
theorem goSort_perm (lt : α → α → Bool) (l : List α) : (goSort lt l).Perm l := by
  unfold goSort
  exact (List.reverse_perm _).trans (by simpa using goSortAux_perm lt l [])

/-- `goSort` preserves membership. -/
theorem mem_goSort (lt : α → α → Bool) (l : List α) (x : α) :
    x ∈ goSort lt l ↔ x ∈ l :=
  (goSort_perm lt l).mem_iff

/-- The head of an insertion is the inserted element or the old head. -/
theorem insRight_head (lt : α → α → Bool) (x : α) :
    ∀ l : List α, (insRight lt x l).head? = some x ∨ (insRight lt x l).head? = l.head? := by
  intro l
  cases l with
  | nil => left; simp [insRight]
  | cons y ys =>
    simp only [insRight]
    by_cases h : lt x y
    · right; simp [h]
    · left; simp [h]

/-- Insertion preserves the reversed-chain invariant, given asymmetry of
    the comparator. -/
theorem insRight_chain (lt : α → α → Bool)
    (hasym : ∀ a b, lt a b = true → lt b a = false) (x : α) :
    ∀ l : List α, List.Chain' (fun a b => lt a b = false) l →
      List.Chain' (fun a b => lt a b = false) (insRight lt x l) := by
  intro l
  induction l with
  | nil => intro _; simp [insRight]
  | cons y ys ih =>
    intro hch
    rw [List.chain'_cons'] at hch
    simp only [insRight]
    cases h : lt x y with
    | true =>
      simp only [if_true]
      rw [List.chain'_cons']
      refine ⟨?_, ih hch.2⟩
      intro z hz
      rcases insRight_head lt x ys with hh | hh
      · rw [hh] at hz
        cases hz
        exact hasym x y h
      · rw [hh] at hz
        exact hch.1 z hz
    | false =>
      simp only [Bool.false_eq_true, if_false]
      rw [List.chain'_cons']
      refine ⟨?_, ?_⟩
      · intro z hz
        simp at hz
        subst hz
        exact h
      · rw [List.chain'_cons']
        exact hch

/-- The fold of insertions yields a reversed chain. -/
theorem goSortAux_chain (lt : α → α → Bool)
    (hasym : ∀ a b, lt a b = true → lt b a = false) :
    ∀ l racc : List α, List.Chain' (fun a b => lt a b = false) racc →
      List.Chain' (fun a b => lt a b = false)
        (l.foldl (fun racc x => insRight lt x racc) racc) := by
  intro l
  induction l with
  | nil => intro racc h; simpa using h
  | cons x rest ih =>
    intro racc h
    simp only [List.foldl_cons]
    exact ih _ (insRight_chain lt hasym x racc h)

/-- `goSort` output is pairwise ordered: no adjacent pair is strictly
    reversed (for a strict weak order this is exactly sortedness). -/
theorem goSort_chain (lt : α → α → Bool)
    (hasym : ∀ a b, lt a b = true → lt b a = false) (l : List α) :
    List.Chain' (fun a b => lt b a = false) (goSort lt l) := by
  unfold goSort
  rw [List.chain'_reverse]
  exact goSortAux_chain lt hasym l [] (by simp)

/-- `charLtB` is asymmetric. -/
theorem charLtB_asym (a b : Char) : charLtB a b = true → charLtB b a = false := by
  simp [charLtB]
  omega

/-- `dataLt` is asymmetric. -/
theorem dataLt_asym : ∀ a b : List Char, dataLt a b = true → dataLt b a = false := by
  intro a
  induction a with
  | nil => intro b h; cases b <;> simp [dataLt] at h ⊢
  | cons x xs ih =>
    intro b h
    cases b with
    | nil => simp [dataLt] at h
    | cons y ys =>
      simp only [dataLt] at h ⊢
      cases hxy : charLtB x y with
      | true =>
        rw [charLtB_asym x y hxy]
        simp [hxy]
      | false =>
        cases hyx : charLtB y x with
        | true => rw [hxy, hyx] at h; simp at h
        | false =>
          rw [hxy, hyx] at h
          simp at h
          simp [hyx, hxy]
          exact ih ys h

/-- `sltB` is asymmetric. -/
theorem sltB_asym (a b : String) : sltB a b = true → sltB b a = false :=
  dataLt_asym a.data b.data

/-- The `ListTasks` comparator is asymmetric. -/
theorem taskLess_asym (a b : Task) : taskLess a b = true → taskLess b a = false := by
  intro h
  unfold taskLess at h ⊢
  by_cases hdue : a.due ≠ "" ∧ b.due ≠ "" ∧ a.due ≠ b.due
  · have hdue' : b.due ≠ "" ∧ a.due ≠ "" ∧ b.due ≠ a.due :=
      ⟨hdue.2.1, hdue.1, fun he => hdue.2.2 he.symm⟩
    rw [if_pos hdue] at h
    rw [if_pos hdue']
    exact sltB_asym _ _ h
  · have hdue' : ¬ (b.due ≠ "" ∧ a.due ≠ "" ∧ b.due ≠ a.due) := by
      intro hc
      exact hdue ⟨hc.2.1, hc.1, fun he => hc.2.2 he.symm⟩
    rw [if_neg hdue] at h
    rw [if_neg hdue']
    cases ha : a.updatedAt with
    | none => cases hb : b.updatedAt <;> rw [ha, hb] at h <;> simp only [ha, hb]
        <;> exact sltB_asym _ _ h
    | some ua =>
      cases hb : b.updatedAt with
      | none => rw [ha, hb] at h; simp only [ha, hb]; exact sltB_asym _ _ h
      | some ub => rw [ha, hb] at h; simp only [ha, hb]; exact sltB_asym _ _ h

/-- The selector-match comparator is asymmetric. -/
theorem selLess_asym (a b : Task) : selLess a b = true → selLess b a = false := by
  intro h
  unfold selLess at h ⊢
  by_cases hp : a.project ≠ b.project
  · rw [if_pos hp] at h
    rw [if_pos (fun he => hp he.symm)]
    exact sltB_asym _ _ h
  · rw [if_neg hp] at h
    rw [if_neg (fun hc : b.project ≠ a.project => hp (fun he => hc he.symm))]
    by_cases hc : a.column ≠ b.column
    · rw [if_pos hc] at h
      rw [if_pos (fun he => hc he.symm)]
      exact sltB_asym _ _ h
    · rw [if_neg hc] at h
      rw [if_neg (fun hcc : b.column ≠ a.column => hc (fun he => hcc he.symm))]
      exact sltB_asym _ _ h

/-! ## String plumbing lemmas -/

/-- String concatenation concatenates the character data. -/
theorem data_append (a b : String) : (a ++ b).data = a.data ++ b.data := rfl

/-- `String.mk` is inverse to `String.data`. -/
theorem mk_data (s : String) : String.mk s.data = s := rfl

/-- `splitNLData` never returns the empty list. -/
theorem splitNLData_ne_nil : ∀ cs : List Char, splitNLData cs ≠ [] := by
  intro cs
  cases cs with
  | nil => simp [splitNLData]
  | cons c cs =>
    simp only [splitNLData]
    cases h : splitNLData cs with
    | nil => simp
    | cons l ls =>
      by_cases hc : c = '\n' <;> simp [hc]

/-- Splitting at a designated newline splits the surrounding parts. -/
theorem splitNLData_append :
    ∀ A B : List Char, splitNLData (A ++ '\n' :: B) = splitNLData A ++ splitNLData B := by
  intro A B
  induction A with
  | nil =>
    simp only [List.nil_append, splitNLData]
    cases h : splitNLData B with
    | nil => exact absurd h (splitNLData_ne_nil B)
    | cons l ls => simp [splitNLData]
  | cons c cs ih =>
    simp only [List.cons_append, splitNLData]
    cases h : splitNLData cs with
    | nil => exact absurd h (splitNLData_ne_nil cs)
    | cons l ls =>
      rw [h] at ih
      have ih' : splitNLData (cs.append ('\n' :: B)) = l :: ls ++ splitNLData B := ih
      rw [ih']
      by_cases hc : c = '\n' <;> simp [hc, List.cons_append]

/-- A newline-free list is a single line. -/
theorem splitNLData_no_nl : ∀ cs : List Char, '\n' ∉ cs → splitNLData cs = [cs] := by
  intro cs
  induction cs with
  | nil => intro _; simp [splitNLData]
  | cons c cs ih =>
    intro h
    have hc : c ≠ '\n' := fun he => h (he ▸ List.mem_cons_self c cs)
    have hcs : '\n' ∉ cs := fun hm => h (List.mem_cons_of_mem c hm)
    simp only [splitNLData, ih hcs]
    simp [fun he => hc he]

/-- Joining the split lines restores the text. -/
theorem joinNLData_splitNLData : ∀ cs : List Char, joinNLData (splitNLData cs) = cs := by
  intro cs
  induction cs with
  | nil => simp [splitNLData, joinNLData]
  | cons c cs ih =>
    simp only [splitNLData]
    cases h : splitNLData cs with
    | nil => exact absurd h (splitNLData_ne_nil cs)
    | cons l ls =>
      rw [h] at ih
      by_cases hc : c = '\n'
      · subst hc
        simp only [if_pos rfl]
        cases ls with
        | nil => simp [joinNLData] at ih ⊢; exact ih
        | cons l2 ls2 => simp [joinNLData] at ih ⊢; exact ih
      · simp only [if_neg hc]
        cases ls with
        | nil => simp [joinNLData] at ih ⊢; rw [ih]
        | cons l2 ls2 => simp [joinNLData] at ih ⊢; rw [ih]

/-- Splitting a join of newline-free lines restores the lines. -/
theorem splitNLData_joinNLData :
    ∀ M : List (List Char), M ≠ [] → (∀ l ∈ M, '\n' ∉ l) →
      splitNLData (joinNLData M) = M := by
  intro M
  induction M with
  | nil => intro h _; exact absurd rfl h
  | cons l ls ih =>
    intro _ hok
    cases ls with
    | nil =>
      simp only [joinNLData]
      exact splitNLData_no_nl l (hok l (by simp))
    | cons l2 ls2 =>
      have : joinNLData (l :: l2 :: ls2) = l ++ '\n' :: joinNLData (l2 :: ls2) := rfl
      rw [this, splitNLData_append, splitNLData_no_nl l (hok l (by simp))]
      rw [ih (by simp) (fun x hx => hok x (List.mem_cons_of_mem l hx))]
      rfl

/-- Newline normalisation is the identity on carriage-return-free text. -/
theorem normNLData_id : ∀ cs : List Char, '\r' ∉ cs → normNLData cs = cs := by
  intro cs
  induction cs with
  | nil => intro _; rfl
  | cons c cs ih =>
    intro h
    have hc : c ≠ '\r' := fun he => h (he ▸ List.mem_cons_self c cs)
    have hcs : '\r' ∉ cs := fun hm => h (List.mem_cons_of_mem c hm)
    cases cs with
    | nil => simp [normNLData, hc]
    | cons c2 cs2 =>
      rw [normNLData.eq_def]
      simp only [if_neg hc]
      rw [ih hcs]

/-! ## Codec lemmas: the emitted header round-trips -/

/-- What `plainChar` guarantees. -/
theorem plainChar_spec (c : Char) (h : plainChar c = true) :
    c ≠ '"' ∧ c ≠ '\\' ∧ c ≠ '\n' ∧ c ≠ '\r' := by
  simp [plainChar] at h
  exact ⟨h.1, h.2.1, h.2.2.1, h.2.2.2⟩

/-- Characters of a quoted plain scalar contain no line breaks. -/
theorem quoteS_chars (s : String) (h : plainS s = true) :
    ∀ c ∈ (quoteS s).data, c ≠ '\n' ∧ c ≠ '\r' := by
  intro c hc
  have hdata : (quoteS s).data = '"' :: (s.data ++ ['"']) := by
    simp [quoteS, data_append]
  rw [hdata] at hc
  simp at hc
  rcases hc with hc | hc | hc
  · subst hc; exact ⟨by decide, by decide⟩
  · have := plainChar_spec c (by simpa [plainS] using List.all_eq_true.mp h c hc)
    exact ⟨this.2.2.1, this.2.2.2⟩
  · subst hc; exact ⟨by decide, by decide⟩

/-- Characters of the emitted flow items contain no line breaks. -/
theorem emitItems_chars :
    ∀ tags : List String, (∀ t ∈ tags, plainS t = true) →
      ∀ c ∈ (emitItems tags).data, c ≠ '\n' ∧ c ≠ '\r' := by
  intro tags
  induction tags with
  | nil => intro _ c hc; simp [emitItems] at hc
  | cons t ts ih =>
    intro h c hc
    cases ts with
    | nil =>
      exact quoteS_chars t (h t (by simp)) c (by simpa [emitItems] using hc)
    | cons t2 ts2 =>
      have hdata : (emitItems (t :: t2 :: ts2)).data =
          (quoteS t).data ++ (", ".data ++ (emitItems (t2 :: ts2)).data) := by
        simp [emitItems, data_append]
      rw [hdata] at hc
      simp only [List.mem_append] at hc
      rcases hc with hc | hc | hc
      · exact quoteS_chars t (h t (by simp)) c hc
      · have : c = ',' ∨ c = ' ' := by
          simpa [show (", " : String).data = [',', ' '] from rfl] using hc
        rcases this with hc2 | hc2 <;> subst hc2 <;> exact ⟨by decide, by decide⟩
      · exact ih (fun x hx => h x (List.mem_cons_of_mem t hx)) c hc

/-- Characters of an emitted flow list contain no line breaks. -/
theorem emitFlowList_chars (tags : List String) (h : ∀ t ∈ tags, plainS t = true) :
    ∀ c ∈ (emitFlowList tags).data, c ≠ '\n' ∧ c ≠ '\r' := by
  intro c hc
  have hdata : (emitFlowList tags).data = '[' :: ((emitItems tags).data ++ [']']) := by
    simp [emitFlowList, data_append]
  rw [hdata] at hc
  rcases List.mem_cons.mp hc with hc | hc
  · subst hc; exact ⟨by decide, by decide⟩
  rcases List.mem_append.mp hc with hc | hc
  · exact emitItems_chars tags h c hc
  · have : c = ']' := by simpa using hc
    subst this; exact ⟨by decide, by decide⟩

/-- Characters of an emitted timestamp contain no line breaks. -/
theorem emitTime_chars (o : Option String) (h : plainS (o.getD "") = true) :
    ∀ c ∈ (emitTime o).data, c ≠ '\n' ∧ c ≠ '\r' := by
  intro c hc
  cases o with
  | none =>
    have hd : (emitTime none).data = ['n', 'u', 'l', 'l'] := rfl
    rw [hd] at hc
    simp at hc
    rcases hc with hc | hc | hc <;> subst hc <;> exact ⟨by decide, by decide⟩
  | some ts => exact quoteS_chars ts h c hc

/-- A header line `key ++ value` whose pieces avoid line breaks. -/
theorem line_chars (k v : String)
    (hk : ∀ c ∈ k.data, c ≠ '\n' ∧ c ≠ '\r')
    (hv : ∀ c ∈ v.data, c ≠ '\n' ∧ c ≠ '\r') :
    ('\n' ∉ (k ++ v).data) ∧ ('\r' ∉ (k ++ v).data) := by
  constructor
  · intro hm
    rw [data_append] at hm
    rcases List.mem_append.mp hm with hm | hm
    · exact (hk _ hm).1 rfl
    · exact (hv _ hm).1 rfl
  · intro hm
    rw [data_append] at hm
    rcases List.mem_append.mp hm with hm | hm
    · exact (hk _ hm).2 rfl
    · exact (hv _ hm).2 rfl

/-- A line starting with a character other than `-` is not `---`. -/
theorem line_ne_dashes (k v : String) (ch : Char)
    (hh : k.data.head? = some ch) (hch : ch ≠ '-') : k ++ v ≠ "---" := by
  intro he
  have hd : (k ++ v).data = "---".data := congrArg String.data he
  rw [data_append] at hd
  cases hk : k.data with
  | nil => rw [hk] at hh; simp at hh
  | cons c rest =>
    rw [hk] at hh hd
    have hc : c = ch := by simpa using hh
    have hdash : c = '-' := by
      have := congrArg List.head? hd
      simpa using this
    exact hch (hc ▸ hdash)

/-- Every emitted header line avoids line breaks and is not the
    frontmatter delimiter. -/
theorem yamlLines_ok (m : TaskMeta) (h : validMeta m = true) :
    ∀ l ∈ yamlLines m, ('\n' ∉ l.data) ∧ ('\r' ∉ l.data) ∧ l ≠ "---" := by
  have hv := h
  simp only [validMeta, Bool.and_eq_true] at hv
  obtain ⟨⟨⟨⟨⟨⟨⟨⟨⟨⟨⟨⟨hschema, hid⟩, htitle⟩, hstatus⟩, hproject⟩, hcolumn⟩,
    hpriority⟩, htags⟩, hdue⟩, hcreated⟩, hupdated⟩, hcompleted⟩, harchived⟩ := hv
  have htags' : ∀ t ∈ m.tags, plainS t = true := fun t ht =>
    List.all_eq_true.mp htags t ht
  have hrepr : (Nat.repr m.schema).data = ['1'] := by
    have : m.schema = 1 := by simpa using hschema
    rw [this]
    rfl
  have hreprchars : ∀ c ∈ (Nat.repr m.schema).data, c ≠ '\n' ∧ c ≠ '\r' := by
    intro c hc
    rw [hrepr] at hc
    simp at hc
    subst hc
    exact ⟨by decide, by decide⟩
  intro l hl
  simp only [yamlLines, List.mem_cons, List.not_mem_nil, or_false] at hl
  rcases hl with hl | hl | hl | hl | hl | hl | hl | hl | hl | hl | hl | hl | hl <;>
    subst hl <;>
    refine ⟨?_, ?_, ?_⟩
  case _ => exact (line_chars _ _ (by decide) hreprchars).1
  case _ => exact (line_chars _ _ (by decide) hreprchars).2
  case _ => exact line_ne_dashes _ _ 's' rfl (by decide)
  case _ => exact (line_chars _ _ (by decide) (quoteS_chars _ hid)).1
  case _ => exact (line_chars _ _ (by decide) (quoteS_chars _ hid)).2
  case _ => exact line_ne_dashes _ _ 'i' rfl (by decide)
  case _ => exact (line_chars _ _ (by decide) (quoteS_chars _ htitle)).1
  case _ => exact (line_chars _ _ (by decide) (quoteS_chars _ htitle)).2
  case _ => exact line_ne_dashes _ _ 't' rfl (by decide)
  case _ => exact (line_chars _ _ (by decide) (quoteS_chars _ hstatus)).1
  case _ => exact (line_chars _ _ (by decide) (quoteS_chars _ hstatus)).2
  case _ => exact line_ne_dashes _ _ 's' rfl (by decide)
  case _ => exact (line_chars _ _ (by decide) (quoteS_chars _ hproject)).1
  case _ => exact (line_chars _ _ (by decide) (quoteS_chars _ hproject)).2
  case _ => exact line_ne_dashes _ _ 'p' rfl (by decide)
  case _ => exact (line_chars _ _ (by decide) (quoteS_chars _ hcolumn)).1
  case _ => exact (line_chars _ _ (by decide) (quoteS_chars _ hcolumn)).2
  case _ => exact line_ne_dashes _ _ 'c' rfl (by decide)
  case _ => exact (line_chars _ _ (by decide) (quoteS_chars _ hpriority)).1
  case _ => exact (line_chars _ _ (by decide) (quoteS_chars _ hpriority)).2
  case _ => exact line_ne_dashes _ _ 'p' rfl (by decide)
  case _ => exact (line_chars _ _ (by decide) (emitFlowList_chars _ htags')).1
  case _ => exact (line_chars _ _ (by decide) (emitFlowList_chars _ htags')).2
  case _ => exact line_ne_dashes _ _ 't' rfl (by decide)
  case _ => exact (line_chars _ _ (by decide) (quoteS_chars _ hdue)).1
  case _ => exact (line_chars _ _ (by decide) (quoteS_chars _ hdue)).2
  case _ => exact line_ne_dashes _ _ 'd' rfl (by decide)
  case _ => exact (line_chars _ _ (by decide) (emitTime_chars _ hcreated)).1
  case _ => exact (line_chars _ _ (by decide) (emitTime_chars _ hcreated)).2
  case _ => exact line_ne_dashes _ _ 'c' rfl (by decide)
  case _ => exact (line_chars _ _ (by decide) (emitTime_chars _ hupdated)).1
  case _ => exact (line_chars _ _ (by decide) (emitTime_chars _ hupdated)).2
  case _ => exact line_ne_dashes _ _ 'u' rfl (by decide)
  case _ => exact (line_chars _ _ (by decide) (emitTime_chars _ hcompleted)).1
  case _ => exact (line_chars _ _ (by decide) (emitTime_chars _ hcompleted)).2
  case _ => exact line_ne_dashes _ _ 'c' rfl (by decide)
  case _ => exact (line_chars _ _ (by decide) (emitTime_chars _ harchived)).1
  case _ => exact (line_chars _ _ (by decide) (emitTime_chars _ harchived)).2
  case _ => exact line_ne_dashes _ _ 'a' rfl (by decide)

/-- `sepSearch` finds the delimiter line after the header lines. -/
theorem sepSearch_spec :
    ∀ (yls : List String) (b : String) (bs : List String),
      (∀ l ∈ yls, l ≠ "---") →
      sepSearch (yls ++ "---" :: b :: bs) = some (yls, b :: bs) := by
  intro yls
  induction yls with
  | nil =>
    intro b bs _
    simp [sepSearch]
  | cons l yls' ih =>
    intro b bs h
    have hl : l ≠ "---" := h l (by simp)
    obtain ⟨a, t, hat⟩ : ∃ a t, yls' ++ "---" :: b :: bs = a :: t := by
      cases hc : yls' ++ "---" :: b :: bs with
      | nil => simp at hc
      | cons a t => exact ⟨a, t, rfl⟩
    rw [List.cons_append, hat]
    simp only [sepSearch, if_neg hl]
    rw [← hat, ih b bs (fun x hx => h x (List.mem_cons_of_mem l hx))]

/-- `takeQuoted` stops exactly at the closing quote of a plain scalar. -/
theorem takeQuoted_exact :
    ∀ (cs rem : List Char), (∀ c ∈ cs, plainChar c = true) →
      takeQuoted (cs ++ '"' :: rem) = some (String.mk cs, rem) := by
  intro cs
  induction cs with
  | nil => intro rem _; simp [takeQuoted]
  | cons c cs ih =>
    intro rem h
    have hc := plainChar_spec c (h c (by simp))
    have ih' : takeQuoted (cs.append ('"' :: rem)) = some (String.mk cs, rem) :=
      ih rem (fun x hx => h x (List.mem_cons_of_mem c hx))
    simp only [List.cons_append, takeQuoted, if_neg hc.1, if_neg hc.2.1]
    rw [ih']

/-- `unquoteS` inverts `quoteS` on plain scalars. -/
theorem unquoteS_quoteS (s : String) (h : plainS s = true) :
    unquoteS (quoteS s) = some s := by
  have hdata : (quoteS s).data = '"' :: (s.data ++ '"' :: []) := by
    simp [quoteS, data_append]
  unfold unquoteS
  rw [hdata]
  show (match takeQuoted (s.data ++ '"' :: []) with
        | some (content, []) => some content
        | _ => none) = some s
  rw [takeQuoted_exact s.data [] (fun c hc => List.all_eq_true.mp h c hc)]

/-- `stripKey` strips the key it is given. -/
theorem stripKey_pre (k v : String) : stripKey k (k ++ v) = some v := by
  unfold stripKey
  have hpre : hasPrefixS (k ++ v) k = true := by
    unfold hasPrefixS
    rw [data_append]
    exact List.isPrefixOf_iff_prefix.mpr (List.prefix_append _ _)
  rw [if_pos hpre, data_append, List.drop_left]

/-- `parseTime` inverts `emitTime` on plain timestamps. -/
theorem parseTime_emitTime (o : Option String) (h : plainS (o.getD "") = true) :
    parseTime (emitTime o) = some o := by
  cases o with
  | none => rfl
  | some ts =>
    unfold parseTime
    have hne : emitTime (some ts) ≠ "null" := by
      intro he
      have hd := congrArg String.data he
      have : (emitTime (some ts)).data = '"' :: (ts.data ++ ['"']) := by
        simp [emitTime, quoteS, data_append]
      rw [this] at hd
      have := congrArg List.head? hd
      simp at this
    rw [if_neg hne]
    rw [show emitTime (some ts) = quoteS ts from rfl, unquoteS_quoteS ts h]

/-- `parseFlowAux` consumes the characters of the current item. -/
theorem parseFlowAux_consume :
    ∀ (cs cur : List Char) (acc : List String) (rest : List Char),
      (∀ c ∈ cs, plainChar c = true) →
      parseFlowAux cur acc (cs ++ '"' :: rest) =
        parseFlowAux (cs.reverse ++ cur) acc ('"' :: rest) := by
  intro cs
  induction cs with
  | nil => intro cur acc rest _; simp
  | cons c cs ih =>
    intro cur acc rest h
    have hc := plainChar_spec c (h c (by simp))
    have ih' : parseFlowAux (c :: cur) acc (cs ++ '"' :: rest) =
        parseFlowAux (cs.reverse ++ (c :: cur)) acc ('"' :: rest) :=
      ih (c :: cur) acc rest (fun x hx => h x (List.mem_cons_of_mem c hx))
    show parseFlowAux cur acc (c :: (cs ++ '"' :: rest)) = _
    rw [show parseFlowAux cur acc (c :: (cs ++ '"' :: rest)) =
          (if c = '"' then
            (match cs ++ '"' :: rest with
             | [']'] => some (String.mk cur.reverse :: acc).reverse
             | ',' :: ' ' :: '"' :: more =>
               parseFlowAux [] (String.mk cur.reverse :: acc) more
             | _ => none)
           else if c = '\\' then none
           else parseFlowAux (c :: cur) acc (cs ++ '"' :: rest)) from by
      rw [parseFlowAux.eq_def]]
    rw [if_neg hc.1, if_neg hc.2.1, ih']
    simp

/-- `parseFlowAux` parses the emitted tail of a non-empty item list. -/
theorem parseFlowAux_spec :
    ∀ (items acc : List String), items ≠ [] →
      (∀ i ∈ items, plainS i = true) →
      parseFlowAux [] acc (tailData items) = some (acc.reverse ++ items) := by
  intro items
  induction items with
  | nil => intro acc h _; exact absurd rfl h
  | cons t ts ih =>
    intro acc _ hplain
    have ht : ∀ c ∈ t.data, plainChar c = true :=
      fun c hc => List.all_eq_true.mp (hplain t (by simp)) c hc
    cases ts with
    | nil =>
      show parseFlowAux [] acc (t.data ++ '"' :: [']']) = _
      rw [parseFlowAux_consume t.data [] acc [']'] ht]
      simp [parseFlowAux]
    | cons t2 ts2 =>
      show parseFlowAux [] acc (t.data ++ '"' :: ',' :: ' ' :: '"' :: tailData (t2 :: ts2)) = _
      rw [parseFlowAux_consume t.data [] acc _ ht]
      simp only [parseFlowAux, List.append_nil, List.reverse_reverse, if_true]
      rw [ih (String.mk t.data :: acc) (by simp)
        (fun x hx => hplain x (List.mem_cons_of_mem t hx))]
      simp

/-- The data of an emitted non-empty flow list. -/
theorem emitItems_tailData :
    ∀ items : List String, items ≠ [] →
      (emitItems items).data ++ [']'] = '"' :: tailData items := by
  intro items
  induction items with
  | nil => intro h; exact absurd rfl h
  | cons t ts ih =>
    intro _
    cases ts with
    | nil => simp [emitItems, tailData, quoteS, data_append]
    | cons t2 ts2 =>
      show (quoteS t ++ ", " ++ emitItems (t2 :: ts2)).data ++ [']'] = _
      rw [data_append, data_append]
      have : (quoteS t).data = '"' :: (t.data ++ ['"']) := by
        simp [quoteS, data_append]
      rw [this]
      simp only [tailData, List.cons_append, List.append_assoc]
      rw [← ih (by simp)]
      rfl

/-- `parseFlowList` inverts `emitFlowList` on plain tags. -/
theorem parseFlowList_emitFlowList (items : List String)
    (h : ∀ i ∈ items, plainS i = true) :
    parseFlowList (emitFlowList items) = some items := by
  cases items with
  | nil => rfl
  | cons t ts =>
    unfold parseFlowList
    have hdata : (emitFlowList (t :: ts)).data = '[' :: '"' :: tailData (t :: ts) := by
      show ("[" ++ emitItems (t :: ts) ++ "]").data = _
      rw [data_append, data_append]
      have h1 : ("[" : String).data = ['['] := rfl
      have h2 : ("]" : String).data = [']'] := rfl
      rw [h1, h2, List.append_assoc, emitItems_tailData (t :: ts) (by simp)]
      rfl
    rw [hdata]
    show parseFlowAux [] [] (tailData (t :: ts)) = some (t :: ts)
    rw [parseFlowAux_spec (t :: ts) [] (by simp) h]
    rfl

/-- Splitting a join of newline-free lines restores them (strings). -/
theorem linesOf_joinNL (L : List String) (hM : L ≠ [])
    (h : ∀ l ∈ L, '\n' ∉ l.data) : linesOf (joinNL L) = L := by
  unfold linesOf joinNL
  rw [show (String.mk (joinNLData (L.map String.data))).data =
        joinNLData (L.map String.data) from rfl]
  rw [splitNLData_joinNLData (L.map String.data)
    (fun he => hM (by simpa using he))
    (fun l hl => by
      obtain ⟨x, hx, hxl⟩ := List.mem_map.mp hl
      exact hxl ▸ h x hx)]
  rw [List.map_map]
  show List.map id L = L
  exact List.map_id L

/-- Joining the split lines restores the string. -/
theorem joinNL_linesOf (s : String) : joinNL (linesOf s) = s := by
  unfold linesOf joinNL
  rw [show List.map String.data
        (List.map (fun l => String.mk l) (splitNLData s.data)) =
      splitNLData s.data from by
    rw [List.map_map]
    show List.map id _ = _
    exact List.map_id _]
  rw [joinNLData_splitNLData]

/-- The parser inverts the emitter on a valid header. -/
theorem yamlUnmarshal_marshal (m : TaskMeta) (h : validMeta m = true) :
    yamlUnmarshalMeta (joinNL (yamlLines m)) = some m := by
  have hlines := linesOf_joinNL (yamlLines m) (by simp [yamlLines])
    (fun l hl => (yamlLines_ok m h l hl).1)
  obtain ⟨schema, idf, title, status, project, column, priority,
    tags, due, cAt, uAt, coAt, aAt⟩ := m
  simp only [validMeta, Bool.and_eq_true] at h
  obtain ⟨⟨⟨⟨⟨⟨⟨⟨⟨⟨⟨⟨hschema, hid⟩, htitle⟩, hstatus⟩, hproject⟩, hcolumn⟩,
    hpriority⟩, htags⟩, hdue⟩, hcreated⟩, hupdated⟩, hcompleted⟩, harchived⟩ := h
  have hs1 : schema = 1 := by simpa using hschema
  subst hs1
  have htags' : ∀ t ∈ tags, plainS t = true := fun t ht =>
    List.all_eq_true.mp htags t ht
  unfold yamlUnmarshalMeta
  rw [hlines]
  simp only [yamlLines]
  simp only [stripKey_pre, Option.bind_eq_bind, Option.some_bind]
  rw [show parseNatS (Nat.repr 1) = some 1 from rfl]
  rw [unquoteS_quoteS _ hid, unquoteS_quoteS _ htitle, unquoteS_quoteS _ hstatus,
    unquoteS_quoteS _ hproject, unquoteS_quoteS _ hcolumn,
    unquoteS_quoteS _ hpriority, unquoteS_quoteS _ hdue,
    parseFlowList_emitFlowList _ htags', parseTime_emitTime _ hcreated,
    parseTime_emitTime _ hupdated, parseTime_emitTime _ hcompleted,
    parseTime_emitTime _ harchived]

/-- Characters of a joined line list come from the lines or are
    newlines. -/
theorem mem_joinNLData :
    ∀ (M : List (List Char)) (c : Char), c ∈ joinNLData M →
      (∃ l ∈ M, c ∈ l) ∨ c = '\n' := by
  intro M
  induction M with
  | nil => intro c hc; simp [joinNLData] at hc
  | cons l ls ih =>
    intro c hc
    cases ls with
    | nil =>
      simp only [joinNLData] at hc
      exact Or.inl ⟨l, by simp, hc⟩
    | cons l2 ls2 =>
      rw [show joinNLData (l :: l2 :: ls2) = l ++ '\n' :: joinNLData (l2 :: ls2)
        from rfl] at hc
      rcases List.mem_append.mp hc with hc | hc
      · exact Or.inl ⟨l, by simp, hc⟩
      · rcases List.mem_cons.mp hc with hc | hc
        · exact Or.inr hc
        · rcases ih c hc with ⟨x, hx, hcx⟩ | hnl
          · exact Or.inl ⟨x, List.mem_cons_of_mem l hx, hcx⟩
          · exact Or.inr hnl

/-- Stripping the delimiter prefix of the rejoined front part. -/
theorem trimPrefix_dashes (yls : List String) (hne : yls ≠ []) :
    trimPrefixS (joinNL ("---" :: yls)) "---\n" = joinNL yls := by
  have hdata : (joinNL ("---" :: yls)).data =
      "---\n".data ++ joinNLData (yls.map String.data) := by
    unfold joinNL
    cases hy : yls.map String.data with
    | nil => exact absurd (by simpa using hy) hne
    | cons m ms =>
      rw [show (("---" :: yls).map String.data) = "---".data :: yls.map String.data
        from rfl, hy]
      rfl
  unfold trimPrefixS
  have hpre : hasPrefixS (joinNL ("---" :: yls)) "---\n" = true := by
    unfold hasPrefixS
    rw [hdata]
    exact List.isPrefixOf_iff_prefix.mpr (List.prefix_append _ _)
  rw [if_pos hpre, hdata]
  rw [show ("---\n" : String).data.length = 4 from rfl]
  rw [show ("---\n" : String).data = ['-', '-', '-', '\n'] from rfl]
  simp only [List.drop_succ_cons, List.cons_append, List.drop_zero]
  rfl

/-- Joining with a leading empty line prepends a newline. -/
theorem joinNL_cons_empty (L : List String) (hne : L ≠ []) :
    joinNL ("" :: L) = "\n" ++ joinNL L := by
  unfold joinNL
  cases hy : L.map String.data with
  | nil => exact absurd (by simpa using hy) hne
  | cons m ms =>
    rw [show (("" :: L).map String.data) = [] :: L.map String.data from rfl, hy]
    rfl

/-- `parseFrontmatter` inverts `writeTaskContent` on a valid task: the
    header round-trips exactly, and the read-back body is the written
    body preceded by one newline (the blank line after the header). -/
theorem parseFrontmatter_write (t : Task) (h : validTask t = true) :
    parseFrontmatter (writeTaskContent t) =
      .ok (t.toTaskMeta, "\n" ++ bodyOut t.body) := by
  have hvm : validMeta t.toTaskMeta = true := by
    simp [validTask, Bool.and_eq_true] at h
    exact h.1
  have hbcr : noCR t.body = true := by
    simp [validTask, Bool.and_eq_true] at h
    exact h.2
  have hlok := yamlLines_ok t.toTaskMeta hvm
  have hylne : yamlLines t.toTaskMeta ≠ [] := by simp [yamlLines]
  have hBocr : ∀ c ∈ (bodyOut t.body).data, c ≠ '\r' := by
    intro c hc
    unfold bodyOut at hc
    by_cases hblank : trimSpace t.body = ""
    · rw [if_pos hblank] at hc
      simp at hc
    · rw [if_neg hblank] at hc
      rw [data_append] at hc
      rcases List.mem_append.mp hc with hc | hc
      · have := List.all_eq_true.mp hbcr c hc
        simpa using this
      · by_cases hnl : hasSuffixS t.body "\n" = true
        · rw [hnl] at hc
          simp at hc
        · rw [Bool.not_eq_true] at hnl
          rw [hnl] at hc
          simp at hc
          subst hc
          decide
  -- the character data of the emitted file
  have hdata : (writeTaskContent t).data =
      "---".data ++ '\n' ::
        (joinNLData ((yamlLines t.toTaskMeta).map String.data) ++ '\n' ::
          ("---".data ++ '\n' :: ('\n' :: (bodyOut t.body).data))) := by
    unfold writeTaskContent yamlMarshalMeta
    rw [data_append, data_append, data_append, data_append]
    unfold joinNL
    simp [List.append_assoc]
  -- no carriage returns anywhere
  have hcr : ∀ c ∈ (writeTaskContent t).data, c ≠ '\r' := by
    rw [hdata]
    intro c hc
    rcases List.mem_append.mp hc with hc | hc
    · have hcd : c = '-' := by simpa using hc
      subst hcd; decide
    rcases List.mem_cons.mp hc with hc | hc
    · subst hc; decide
    rcases List.mem_append.mp hc with hc | hc
    · rcases mem_joinNLData _ _ hc with ⟨l, hl, hcl⟩ | hnl
      · obtain ⟨x, hx, hxd⟩ := List.mem_map.mp hl
        intro he
        exact (hlok x hx).2.1 (he ▸ hxd ▸ hcl)
      · subst hnl; decide
    rcases List.mem_cons.mp hc with hc | hc
    · subst hc; decide
    rcases List.mem_append.mp hc with hc | hc
    · have hcd : c = '-' := by simpa using hc
      subst hcd; decide
    rcases List.mem_cons.mp hc with hc | hc
    · subst hc; decide
    rcases List.mem_cons.mp hc with hc | hc
    · subst hc; decide
    · exact hBocr c hc
  have hnormid : normNL (writeTaskContent t) = writeTaskContent t := by
    unfold normNL
    rw [normNLData_id _ (fun hm => hcr '\r' hm rfl)]
  have hpre : hasPrefixS (writeTaskContent t) "---\n" = true := by
    unfold hasPrefixS
    rw [hdata]
    refine List.isPrefixOf_iff_prefix.mpr ?_
    rw [show ("---\n" : String).data = ['-', '-', '-', '\n'] from rfl]
    rw [show ("---" : String).data = ['-', '-', '-'] from rfl]
    rw [show (['-', '-', '-'] : List Char) ++ '\n' ::
          (joinNLData ((yamlLines t.toTaskMeta).map String.data) ++ '\n' ::
            (("---" : String).data ++ '\n' :: ('\n' :: (bodyOut t.body).data))) =
        ['-', '-', '-', '\n'] ++
          (joinNLData ((yamlLines t.toTaskMeta).map String.data) ++ '\n' ::
            (("---" : String).data ++ '\n' :: ('\n' :: (bodyOut t.body).data)))
      from rfl]
    exact List.prefix_append _ _
  have hloknl : ∀ l ∈ (yamlLines t.toTaskMeta).map String.data, '\n' ∉ l := by
    intro l hl
    obtain ⟨x, hx, hxd⟩ := List.mem_map.mp hl
    exact hxd ▸ (hlok x hx).1
  have hlines : linesOf (writeTaskContent t) =
      "---" :: (yamlLines t.toTaskMeta ++ "---" :: "" :: linesOf (bodyOut t.body)) := by
    unfold linesOf
    rw [hdata]
    rw [splitNLData_append ("---" : String).data]
    rw [splitNLData_append (joinNLData ((yamlLines t.toTaskMeta).map String.data))]
    rw [splitNLData_append ("---" : String).data]
    rw [show ('\n' :: (bodyOut t.body).data) = [] ++ '\n' :: (bodyOut t.body).data
      from rfl]
    rw [splitNLData_append ([] : List Char)]
    rw [splitNLData_no_nl ("---" : String).data (by decide)]
    rw [splitNLData_no_nl ([] : List Char) (by simp)]
    rw [splitNLData_joinNLData ((yamlLines t.toTaskMeta).map String.data)
      (by simp [yamlLines]) hloknl]
    simp only [List.map_append, List.map_cons, List.map_map, List.map_nil]
    rw [show List.map ((fun l => String.mk l) ∘ String.data)
          (yamlLines t.toTaskMeta) = List.map id (yamlLines t.toTaskMeta) from rfl]
    rw [List.map_id]
    rfl
  have hsepne : ∀ l ∈ yamlLines t.toTaskMeta, l ≠ "---" :=
    fun l hl => (hlok l hl).2.2
  have hlbne : linesOf (bodyOut t.body) ≠ [] := by
    unfold linesOf
    simp [splitNLData_ne_nil]
  have hs1 : t.toTaskMeta.schema = 1 := by
    simp only [validMeta, Bool.and_eq_true] at hvm
    simpa using hvm.1.1.1.1.1.1.1.1.1.1.1.1
  unfold parseFrontmatter
  rw [hnormid, hpre]
  simp only [not_true, Bool.not_eq_true, if_false, Bool.true_eq_false]
  rw [hlines]
  simp only []
  rw [sepSearch_spec (yamlLines t.toTaskMeta) "" (linesOf (bodyOut t.body)) hsepne]
  simp only []
  rw [trimPrefix_dashes (yamlLines t.toTaskMeta) hylne]
  rw [yamlUnmarshal_marshal t.toTaskMeta hvm]
  rw [joinNL_cons_empty _ hlbne, joinNL_linesOf]
  show Except.ok
      ({ t.toTaskMeta with
          schema := if t.toTaskMeta.schema = 0 then 1 else t.toTaskMeta.schema },
        "\n" ++ bodyOut t.body) =
    Except.ok (t.toTaskMeta, "\n" ++ bodyOut t.body)
  rw [hs1]
  simp only [if_neg (by decide : ¬ (1 = 0))]
  rw [← hs1]

/-! ## The claims -/

/-- C1: the spec (and the repository documentation of `--match auto`)
    describe a title-matching cascade exact → prefix → contains → search
    when no explicit match mode is pinned.  The code has no such
    cascade: `normalizeMatchMode` sends the empty (and any unknown) mode
    to `MatchExact`, so resolution runs exact matching only.  On a store
    containing only `Draft proposal v2`, the selector `Draft proposal`
    resolves to nothing (NotFound), although the title-prefix stage the
    spec promises would have matched the task. -/
theorem c1_default_resolution_is_exact_only_not_cascade :
    resolveTasks diskDraft "Draft proposal" {} = .ok [] ∧
    getTaskBySelectorFiltered diskDraft "Draft proposal" {} = .error .notFound ∧
    (findTasksByTitlePrefixFiltered diskDraft "Draft proposal"
        (normalizeSelectorFilter {})).map (fun t => t.id) = ["tsk_01HZZA"] ∧
    normalizeMatchMode "" = MatchExact ∧ normalizeMatchMode "auto" = MatchExact := by
  refine ⟨by rfl, by rfl, by rfl, by rfl, by rfl⟩

/-- C9: Go `AddNote` performs no blank-text validation: called with a
    note that is blank after trimming it succeeds and appends an
    empty-texted note entry, where the spec (and the parallel
    `AddIdeaNote`, which does reject) demands the `Invalid` error. -/
theorem c9_addnote_blank_text_is_not_rejected :
    (addNote diskDraft "2026-02-01T00:00:00Z" "TSK_01HZZA" "   ").isOk = true ∧
    (addNote diskDraft "2026-02-01T00:00:00Z" "TSK_01HZZA" "   ").map
        (fun p => p.2.body) =
      Except.ok "\nhello\n- 2026-02-01T00:00:00Z — \n" := by
  refine ⟨by rfl, by rfl⟩

/-- C10: a selector that is empty, or blank after trimming, makes all
    four selector entry points fail with the `Invalid` error kind before
    any candidate scan. -/
theorem c10_blank_selector_invalid (d : Disk) (sel : String)
    (fT : SelectorFilter) (fI : IdeaSelectorFilter) (h : trimSpace sel = "") :
    getTaskBySelectorFiltered d sel fT = .error .invalid ∧
    resolveTasks d sel fT = .error .invalid ∧
    getIdeaBySelectorFiltered d sel fI = .error .invalid ∧
    resolveIdeas d sel fI = .error .invalid := by
  refine ⟨?_, ?_, ?_, ?_⟩
  · simp [getTaskBySelectorFiltered, h]
  · simp [resolveTasks, h]
  · simp [getIdeaBySelectorFiltered, h]
  · simp [resolveIdeas, h]

/-- Witness for C10 at a concrete whitespace selector. -/
theorem c10_blank_selector_invalid_witness :
    trimSpace "   " = "" ∧
    (getTaskBySelectorFiltered diskEmpty "   " {} = .error .invalid ∧
     resolveTasks diskEmpty "   " {} = .error .invalid ∧
     getIdeaBySelectorFiltered diskEmpty "   " {} = .error .invalid ∧
     resolveIdeas diskEmpty "   " {} = .error .invalid) :=
  ⟨by rfl, c10_blank_selector_invalid diskEmpty "   " {} {} (by rfl)⟩

/-- C6: a successful `MoveTask` leaves the returned task with the target
    column's status; `completedAt` is the move timestamp exactly when
    that status is `done` and cleared otherwise, and `archivedAt` is set
    exactly when it is `archived` — so moving into a `done` column sets
    `completedAt` and clears `archivedAt`, and moving on into an `open`
    column clears both. -/
theorem c6_move_sets_completion_stamps (d : Disk) (now pfx colID : String)
    (d' : Disk) (t : Task) (h : moveTask d now pfx colID = .ok (d', t)) :
    (columnByID d.cfg colID).map (fun c => c.status) = some t.status ∧
    (t.completedAt.isSome ↔ t.status = "done") ∧
    (t.archivedAt.isSome ↔ t.status = "archived") ∧
    (t.status = "done" → t.completedAt = some now ∧ t.archivedAt = none) ∧
    (t.status = "open" → t.completedAt = none ∧ t.archivedAt = none) := by
  unfold moveTask at h
  cases hg : getTaskByPrefix d pfx with
  | error e => rw [hg] at h; exact absurd h (by simp)
  | ok task0 =>
    rw [hg] at h
    cases hc : columnByID d.cfg colID with
    | none => rw [hc] at h; exact absurd h (by simp)
    | some col =>
      rw [hc] at h
      simp only [] at h
      by_cases hp : trimSpace (reconcileTaskFromPath d.cfg task0).project = ""
      · rw [if_pos hp] at h
        exact absurd h (by simp)
      · rw [if_neg hp] at h
        simp only [Except.ok.injEq, Prod.mk.injEq] at h
        obtain ⟨-, ht⟩ := h
        subst ht
        refine ⟨by simp, ?_, ?_, ?_, ?_⟩
        · by_cases hdone : col.status = "done" <;> simp [hdone]
        · by_cases harch : col.status = "archived" <;> simp [harch]
        · intro hdone
          simp at hdone
          simp [hdone]
        · intro hopen
          simp at hopen
          simp [hopen]

/-- A one-byte UTF-8 character. -/
theorem utf8Size_ascii (c : Char) (h : c.toNat < 128) : c.utf8Size = 1 := by
  unfold Char.utf8Size
  rw [if_pos]
  change c.val ≤ 127
  rw [UInt32.le_def, BitVec.le_def]
  show c.val.toBitVec.toNat ≤ (127 : UInt32).toBitVec.toNat
  rw [show (127 : UInt32).toBitVec.toNat = 127 from rfl]
  exact Nat.le_of_lt_succ h

/-- The byte count of an ASCII character list equals its length. -/
theorem utf8go_ascii :
    ∀ cs : List Char, (∀ c ∈ cs, c.toNat < 128) →
      String.utf8ByteSize.go cs = cs.length := by
  intro cs
  induction cs with
  | nil => intro _; rfl
  | cons c cs ih =>
    intro h
    show String.utf8ByteSize.go cs + c.utf8Size = cs.length + 1
    rw [ih (fun x hx => h x (List.mem_cons_of_mem c hx)),
        utf8Size_ascii c (h c (by simp))]

/-- ASCII strings have as many bytes as characters. -/
theorem utf8ByteSize_ascii (s : String) (h : ∀ c ∈ s.data, c.toNat < 128) :
    s.utf8ByteSize = s.data.length := by
  cases s with
  | mk data => exact utf8go_ascii data h

/-- `Char.ofNat` inverts `Char.toNat` below the surrogate range. -/
theorem toNat_ofNat_valid (n : Nat) (h : n < 55296) : (Char.ofNat n).toNat = n := by
  rw [Char.ofNat, dif_pos (Or.inl h : Char.isValidCharNat n)]
  rfl

/-- `Char.toUpper` fixes everything but lowercase ASCII letters. -/
theorem toUpper_eq_of_not_lower (c : Char) (h : ¬ (97 ≤ c.toNat ∧ c.toNat ≤ 122)) :
    Char.toUpper c = c := by
  unfold Char.toUpper
  exact if_neg (fun hc => h ⟨hc.1, hc.2⟩)

/-- `Char.toUpper` on lowercase ASCII letters subtracts 32. -/
theorem toUpper_lower_toNat (c : Char) (h : 97 ≤ c.toNat ∧ c.toNat ≤ 122) :
    (Char.toUpper c).toNat = c.toNat - 32 := by
  unfold Char.toUpper
  rw [if_pos ⟨h.1, h.2⟩]
  exact toNat_ofNat_valid (c.toNat - 32) (by omega)

/-- Character order is code point order. -/
theorem char_le_iff_toNat (a b : Char) : a ≤ b ↔ a.toNat ≤ b.toNat := by
  rw [Char.le_def, UInt32.le_def, BitVec.le_def]
  exact Iff.rfl

/-- Uppercasing does not change digit-ness. -/
theorem digit_toUpper_iff (c : Char) :
    ('0' ≤ Char.toUpper c ∧ Char.toUpper c ≤ '9') ↔ ('0' ≤ c ∧ c ≤ '9') := by
  by_cases h : 97 ≤ c.toNat ∧ c.toNat ≤ 122
  · have hu := toUpper_lower_toNat c h
    rw [char_le_iff_toNat, char_le_iff_toNat, char_le_iff_toNat, char_le_iff_toNat, hu]
    rw [show ('0' : Char).toNat = 48 from rfl, show ('9' : Char).toNat = 57 from rfl]
    omega
  · rw [toUpper_eq_of_not_lower c h]

/-- A character whose uppercase form is in the identity alphabet is
    ASCII. -/
theorem ascii_of_toUpper_mem_alphabet (c : Char)
    (h : Char.toUpper c ∈ idAlphabet.data) : c.toNat < 128 := by
  by_cases hl : 97 ≤ c.toNat ∧ c.toNat ≤ 122
  · omega
  · rw [toUpper_eq_of_not_lower c hl] at h
    have hall : ∀ x ∈ idAlphabet.data, x.toNat < 128 := by decide
    exact hall c h

/-- The uppercased data of a string. -/
theorem toUpperS_data (s : String) :
    (toUpperS s).data = s.data.map Char.toUpper := rfl

/-- C8: the id-like classification of task selectors is exactly the
    spec's shape (`tsk_` prefix case-insensitively, or at least 8
    characters, all uppercased characters in the identity alphabet and
    at least one digit — the Go byte-length test agrees with the
    character count because the alphabet condition forces ASCII), and
    resolution routes id-like selectors through the id-prefix match
    first with title matching as fallback, and non-id-like selectors the
    other way around. -/
theorem c8_idlike_classification_and_routing :
    (∀ sel : String, isLikelyIDSelector sel = true ↔ claimIdLikeShape sel) ∧
    (∀ (d : Disk) (sel : String) (f : SelectorFilter),
      isLikelyIDSelector sel = true →
      resolveSelectorCandidates d sel f =
        (if findTasksByPrefixFiltered d sel (normalizeSelectorFilter f) ≠ []
         then findTasksByPrefixFiltered d sel (normalizeSelectorFilter f)
         else findTasksByMatchMode d sel (normalizeSelectorFilter f))) ∧
    (∀ (d : Disk) (sel : String) (f : SelectorFilter),
      isLikelyIDSelector sel = false →
      resolveSelectorCandidates d sel f =
        (if findTasksByMatchMode d sel (normalizeSelectorFilter f) ≠ []
         then findTasksByMatchMode d sel (normalizeSelectorFilter f)
         else findTasksByPrefixFiltered d sel (normalizeSelectorFilter f))) := by
  refine ⟨?_, ?_, ?_⟩
  · intro sel
    unfold isLikelyIDSelector claimIdLikeShape
    by_cases h0 : trimSpace sel = ""
    · rw [if_pos h0, h0]
      decide
    rw [if_neg h0]
    by_cases h1 : hasPrefixS (toLowerS (trimSpace sel)) "tsk_" = true
    · rw [if_pos h1]
      simp only [true_iff]
      exact Or.inl h1
    rw [if_neg h1]
    have hiff :
        ((toUpperS (trimSpace sel)).data.all (fun r => containsRuneS idAlphabet r) &&
          (toUpperS (trimSpace sel)).data.any (fun r =>
            decide ('0' ≤ r ∧ r ≤ '9'))) = true ↔
        ((∀ c ∈ (trimSpace sel).data, Char.toUpper c ∈ idAlphabet.data) ∧
          (∃ c ∈ (trimSpace sel).data, '0' ≤ c ∧ c ≤ '9')) := by
      rw [Bool.and_eq_true, List.all_eq_true, List.any_eq_true]
      rw [toUpperS_data]
      constructor
      · rintro ⟨hall, x, hx, hdig⟩
        obtain ⟨c, hc, hcx⟩ := List.mem_map.mp hx
        refine ⟨?_, c, hc, ?_⟩
        · intro c2 hc2
          have := hall (Char.toUpper c2) (List.mem_map_of_mem Char.toUpper hc2)
          simpa [containsRuneS, List.elem_iff] using this
        · exact (digit_toUpper_iff c).mp (by simpa [hcx] using of_decide_eq_true hdig)
      · rintro ⟨hall, c, hc, hdig⟩
        refine ⟨?_, Char.toUpper c, List.mem_map_of_mem Char.toUpper hc, ?_⟩
        · intro x hx
          obtain ⟨c2, hc2, hcx⟩ := List.mem_map.mp hx
          have := hall c2 hc2
          simpa [containsRuneS, List.elem_iff, hcx] using this
        · exact decide_eq_true ((digit_toUpper_iff c).mpr hdig)
    by_cases h2 : (trimSpace sel).utf8ByteSize < 8
    · rw [if_pos h2]
      simp only [Bool.false_eq_true, false_iff]
      intro hcl
      rcases hcl with hcl | hcl
      · exact h1 hcl
      · obtain ⟨hlen, hall, -⟩ := hcl
        have hascii : ∀ c ∈ (trimSpace sel).data, c.toNat < 128 :=
          fun c hc => ascii_of_toUpper_mem_alphabet c (hall c hc)
        rw [utf8ByteSize_ascii _ hascii] at h2
        omega
    · rw [if_neg h2]
      rw [hiff]
      constructor
      · rintro ⟨hall, hdig⟩
        refine Or.inr ⟨?_, hall, hdig⟩
        have hascii : ∀ c ∈ (trimSpace sel).data, c.toNat < 128 :=
          fun c hc => ascii_of_toUpper_mem_alphabet c (hall c hc)
        rw [← utf8ByteSize_ascii _ hascii]
        omega
      · rintro (hcl | ⟨-, hall, hdig⟩)
        · exact absurd hcl h1
        · exact ⟨hall, hdig⟩
  · intro d sel f hid
    unfold resolveSelectorCandidates
    rw [hid]
    simp only [if_true]
  · intro d sel f hid
    unfold resolveSelectorCandidates
    rw [hid]
    simp only [Bool.false_eq_true, if_false]

/-- Witness for C8: the routing implications instantiated on the draft
    store, with an id-like and a non-id-like selector. -/
theorem c8_idlike_classification_and_routing_witness :
    (isLikelyIDSelector "tsk_01HZZA" = true ∧
      resolveSelectorCandidates diskDraft "tsk_01HZZA" {} =
        (if findTasksByPrefixFiltered diskDraft "tsk_01HZZA"
              (normalizeSelectorFilter {}) ≠ []
         then findTasksByPrefixFiltered diskDraft "tsk_01HZZA"
              (normalizeSelectorFilter {})
         else findTasksByMatchMode diskDraft "tsk_01HZZA"
              (normalizeSelectorFilter {}))) ∧
    (isLikelyIDSelector "Draft proposal v2" = false ∧
      resolveSelectorCandidates diskDraft "Draft proposal v2" {} =
        (if findTasksByMatchMode diskDraft "Draft proposal v2"
              (normalizeSelectorFilter {}) ≠ []
         then findTasksByMatchMode diskDraft "Draft proposal v2"
              (normalizeSelectorFilter {})
         else findTasksByPrefixFiltered diskDraft "Draft proposal v2"
              (normalizeSelectorFilter {}))) :=
  ⟨⟨by rfl, c8_idlike_classification_and_routing.2.1 diskDraft "tsk_01HZZA" {}
      (by rfl)⟩,
   ⟨by rfl, c8_idlike_classification_and_routing.2.2 diskDraft "Draft proposal v2"
      {} (by rfl)⟩⟩

/-- `find?` under an injectively-mapped nodup list finds the member
    itself. -/
theorem find?_nodup_map {α β : Type} [DecidableEq β] (f : α → β) (l : List α)
    (x : α) (hx : x ∈ l) (hnd : (l.map f).Nodup) :
    l.find? (fun y => f y = f x) = some x := by
  induction l with
  | nil => cases hx
  | cons a l ih =>
    rw [List.map_cons, List.nodup_cons] at hnd
    rcases List.mem_cons.mp hx with rfl | hx2
    · rw [List.find?_cons_of_pos _ (by simp)]
    · have hne : ¬ (f a = f x) := fun h => hnd.1 (h ▸ List.mem_map_of_mem f hx2)
      rw [List.find?_cons_of_neg _ (by simpa using hne)]
      exact ih hx2 hnd.2

/-- Reconciliation never moves the file. -/
theorem reconcileTaskFromPath_path (cfg : Config) (t : Task) :
    (reconcileTaskFromPath cfg t).path = t.path := by
  unfold reconcileTaskFromPath
  by_cases h1 : (projectAndColumnFromPath cfg t.path).1 ≠ "" <;>
    by_cases h2 : (projectAndColumnFromPath cfg t.path).2 ≠ "" <;>
      simp only [h1, h2, if_pos, if_neg, if_true, if_false, ite_not] <;>
      first
        | rfl
        | (rcases columnByID cfg (projectAndColumnFromPath cfg t.path).2 with _ | c <;> rfl)

/-- Reconciliation installs the status and id of the column whose
    directory holds the file, under a well-formed configuration. -/
theorem reconcileTaskFromPath_dirColumn (cfg : Config) (t : Task) (col : ColumnDef)
    (hwf : cfgWF cfg) (hc : dirColumn cfg t.path = some col) :
    (reconcileTaskFromPath cfg t).status = col.status ∧
    (reconcileTaskFromPath cfg t).column = col.id := by
  obtain ⟨hndId, hndDir, hidNorm, hdirNorm, hidNe⟩ := hwf
  unfold dirColumn at hc
  by_cases hcond : (t.path.sub.getD 0 "" = "columns" ∧ 2 ≤ t.path.sub.length)
  swap
  · rw [if_neg hcond] at hc; cases hc
  rw [if_pos hcond] at hc
  have hmem : col ∈ cfg.columns := List.mem_of_find?_eq_some hc
  obtain ⟨h0, hlen⟩ := hcond
  rcases hsub : t.path.sub with _ | ⟨a, rest1⟩
  · rw [hsub] at hlen; simp at hlen
  rcases rest1 with _ | ⟨b, rest2⟩
  · rw [hsub] at hlen; simp at hlen
  rw [hsub] at h0
  simp only [List.getD_cons_zero] at h0
  subst h0
  rw [hsub] at hc
  simp only [List.getD_cons_succ, List.getD_cons_zero] at hc
  have hpc : projectAndColumnFromPath cfg t.path = (t.path.project, col.id) := by
    unfold projectAndColumnFromPath
    rw [hsub]
    rw [if_neg (by simp)]
    rw [if_neg (by simp)]
    unfold columnIDByDir
    have hb : trimSpace b = b := by
      have hd : col.dir = b := by simpa using List.find?_some hc
      rw [← hd]; exact hdirNorm col hmem
    simp only [List.cons_append, List.getD_cons_succ, List.getD_cons_zero, hb, hc]
    rfl
  unfold reconcileTaskFromPath
  rw [hpc]
  have hne : col.id ≠ "" := hidNe col hmem
  have hcolById : columnByID cfg col.id = some col := by
    unfold columnByID
    rw [hidNorm col hmem]
    exact find?_nodup_map (fun c => c.id) cfg.columns col hmem hndId
  by_cases h1 : t.path.project ≠ "" <;>
    simp only [h1, hne, if_pos, if_neg, if_true, if_false, ite_not, ite_true,
      ite_false, ne_eq, not_false_eq_true, not_true_eq_false, hcolById] <;>
    trivial

/-- Every task produced by `listTasks` carries the status and id of the
    column whose directory holds its file. -/
theorem listTasks_mem_column (d : Disk) (f : ListFilter) (t : Task)
    (hwf : cfgWF d.cfg) (ht : t ∈ listTasks d f) :
    ∃ c ∈ d.cfg.columns, dirColumn d.cfg t.path = some c ∧
      t.status = c.status ∧ t.column = c.id := by
  obtain ⟨hndId, hndDir, hidNorm, hdirNorm, hidNe⟩ := hwf
  unfold listTasks at ht
  rw [mem_goSort] at ht
  rw [List.mem_flatMap] at ht
  obtain ⟨prj, hprj, ht⟩ := ht
  rw [List.mem_flatMap] at ht
  obtain ⟨c, hcmem, ht⟩ := ht
  refine ⟨c, hcmem, ?_⟩
  by_cases h1 : (¬ f.all ∧ c.id = "archive")
  · rw [if_pos h1] at ht; cases ht
  rw [if_neg h1] at ht
  by_cases h2 : (f.column ≠ "" ∧ c.id ≠ f.column)
  · rw [if_pos h2] at ht; cases ht
  rw [if_neg h2] at ht
  rw [List.mem_filterMap] at ht
  obtain ⟨file, hfile, hg⟩ := ht
  have hsub : ∃ rest, file.path.sub = "columns" :: c.dir :: rest := by
    have hf2 := (mem_goSort _ _ _).mp hfile
    rw [List.mem_filter] at hf2
    have hpfx : List.isPrefixOf ["columns", c.dir] file.path.sub = true := by
      have := hf2.2
      simp only [decide_eq_true_eq] at this
      exact this.2
    obtain ⟨rest, hrest⟩ := (List.isPrefixOf_iff_prefix.mp hpfx)
    exact ⟨rest, hrest.symm⟩
  obtain ⟨rest, hrest⟩ := hsub
  split at hg
  · cases hg
  split at hg
  · cases hg
  simp only [] at hg
  split at hg
  · cases hg
  split at hg
  · cases hg
  split at hg
  · cases hg
  have hteq := Option.some.inj hg
  subst hteq
  refine ⟨?_, rfl, rfl⟩
  show dirColumn d.cfg file.path = some c
  unfold dirColumn
  rw [hrest]
  rw [if_pos (by simp)]
  simp only [List.getD_cons_succ, List.getD_cons_zero]
  exact find?_nodup_map (fun cc => cc.dir) d.cfg.columns c hcmem hndDir

/-- Every task returned by the filtered id-prefix lookup is a
    reconciliation of some read task. -/
theorem findTasksByPrefixFiltered_mem (d : Disk) (pfx : String)
    (fl : SelectorFilter) (t : Task) (ht : t ∈ findTasksByPrefixFiltered d pfx fl) :
    ∃ t0, t = reconcileTaskFromPath d.cfg t0 := by
  unfold findTasksByPrefixFiltered at ht
  by_cases hp : findTasksByPrefix d pfx = []
  · rw [if_pos hp] at ht; cases ht
  rw [if_neg hp] at ht
  rw [mem_goSort, List.mem_filterMap] at ht
  obtain ⟨p, hpmem, hg⟩ := ht
  rcases hread : readTaskFile d p with e | t0
  · rw [hread] at hg; cases hg
  rw [hread] at hg
  simp only [] at hg
  split at hg
  · exact ⟨t0, (Option.some.inj hg).symm⟩
  · cases hg

/-- Every task returned by title matching comes from `listTasks`. -/
theorem findTasksByMatchMode_mem (d : Disk) (sel : String) (fl : SelectorFilter)
    (t : Task) (ht : t ∈ findTasksByMatchMode d sel fl) :
    ∃ g : ListFilter, t ∈ listTasks d g := by
  unfold findTasksByMatchMode at ht
  by_cases hs : fl.match_ = MatchSearch
  · rw [if_pos hs] at ht
    unfold findTasksBySearchFiltered at ht
    rw [mem_goSort] at ht
    exact ⟨_, ht⟩
  rw [if_neg hs] at ht
  by_cases hpfx : fl.match_ = MatchPrefix
  · rw [if_pos hpfx] at ht
    unfold findTasksByTitlePrefixFiltered at ht
    rw [mem_goSort, List.mem_filter] at ht
    exact ⟨_, ht.1⟩
  rw [if_neg hpfx] at ht
  by_cases hcont : fl.match_ = MatchContains
  · rw [if_pos hcont] at ht
    unfold findTasksByTitleContainsFiltered at ht
    rw [mem_goSort, List.mem_filter] at ht
    exact ⟨_, ht.1⟩
  rw [if_neg hcont] at ht
  unfold findTasksByTitleExactFiltered at ht
  rw [mem_goSort, List.mem_filter] at ht
  exact ⟨_, ht.1⟩

/-- Every selector candidate comes from the id-prefix lookup or from
    title matching. -/
theorem resolveSelectorCandidates_mem (d : Disk) (sel : String)
    (fl : SelectorFilter) (t : Task) (ht : t ∈ resolveSelectorCandidates d sel fl) :
    t ∈ findTasksByPrefixFiltered d sel (normalizeSelectorFilter fl) ∨
    t ∈ findTasksByMatchMode d sel (normalizeSelectorFilter fl) := by
  unfold resolveSelectorCandidates at ht
  simp only [] at ht
  split at ht
  · split at ht
    · exact Or.inl ht
    · exact Or.inr ht
  · split at ht
    · exact Or.inr ht
    · exact Or.inl ht

/-- C2: under a well-formed configuration, every task returned by
    `listTasks`, `getTaskByPrefix` or selector resolution carries the
    status of the column whose directory currently contains its file and
    that column's id, whatever the on-disk header recorded. -/
theorem c2_path_is_authoritative (d : Disk) (hwf : cfgWF d.cfg) :
    (∀ (f : ListFilter) (t : Task) (col : ColumnDef),
      t ∈ listTasks d f → dirColumn d.cfg t.path = some col →
      t.status = col.status ∧ t.column = col.id) ∧
    (∀ (pfx : String) (t : Task) (col : ColumnDef),
      getTaskByPrefix d pfx = .ok t → dirColumn d.cfg t.path = some col →
      t.status = col.status ∧ t.column = col.id) ∧
    (∀ (sel : String) (fl : SelectorFilter) (ms : List Task) (t : Task)
        (col : ColumnDef),
      resolveTasks d sel fl = .ok ms → t ∈ ms →
      dirColumn d.cfg t.path = some col →
      t.status = col.status ∧ t.column = col.id) := by
  have hrec : ∀ (t0 : Task) (col : ColumnDef),
      dirColumn d.cfg (reconcileTaskFromPath d.cfg t0).path = some col →
      (reconcileTaskFromPath d.cfg t0).status = col.status ∧
      (reconcileTaskFromPath d.cfg t0).column = col.id := by
    intro t0 col hc
    rw [reconcileTaskFromPath_path] at hc
    exact reconcileTaskFromPath_dirColumn d.cfg t0 col hwf hc
  have hlist : ∀ (f : ListFilter) (t : Task) (col : ColumnDef),
      t ∈ listTasks d f → dirColumn d.cfg t.path = some col →
      t.status = col.status ∧ t.column = col.id := by
    intro f t col ht hc
    obtain ⟨c, -, hdc, hst, hcol⟩ := listTasks_mem_column d f t hwf ht
    rw [hdc] at hc
    obtain rfl := Option.some.inj hc
    exact ⟨hst, hcol⟩
  refine ⟨hlist, ?_, ?_⟩
  · intro pfx t col hok hc
    unfold getTaskByPrefix at hok
    rcases hps : findTasksByPrefix d pfx with _ | ⟨p, _ | ⟨q, rest⟩⟩ <;>
      rw [hps] at hok
    · cases hok
    · simp only [] at hok
      rcases hread : readTaskFile d p with e | t0
      · rw [hread] at hok; cases hok
      · rw [hread] at hok
        simp only [] at hok
        obtain rfl := Except.ok.inj hok
        exact hrec t0 col hc
    · cases hok
  · intro sel fl ms t col hok hmem hc
    unfold resolveTasks at hok
    by_cases hb : trimSpace sel = ""
    · rw [if_pos hb] at hok; cases hok
    rw [if_neg hb] at hok
    obtain rfl := Except.ok.inj hok
    rcases resolveSelectorCandidates_mem d (trimSpace sel) fl t hmem with hin | hin
    · obtain ⟨t0, rfl⟩ := findTasksByPrefixFiltered_mem d (trimSpace sel)
        (normalizeSelectorFilter fl) t hin
      exact hrec t0 col hc
    · obtain ⟨g, hg⟩ := findTasksByMatchMode_mem d (trimSpace sel)
        (normalizeSelectorFilter fl) t hin
      exact hlist g t col hg hc

/-- Witness for C2: in the draft store the listed task sits in the
    `00-inbox` directory, and its status and column are the configured
    ones of the `inbox` column. -/
theorem c2_path_is_authoritative_witness :
    cfgWF diskDraft.cfg ∧
    tDraftListed ∈ listTasks diskDraft {} ∧
    dirColumn diskDraft.cfg tDraftListed.path =
      some { id := "inbox", name := "Inbox", dir := "00-inbox", status := "open" } ∧
    tDraftListed.status = "open" ∧ tDraftListed.column = "inbox" := by
  have hwf : cfgWF diskDraft.cfg := by
    refine ⟨?_, ?_, ?_, ?_, ?_⟩ <;> decide
  have hmem : tDraftListed ∈ listTasks diskDraft {} := by
    have hl : listTasks diskDraft {} = [tDraftListed] := by rfl
    rw [hl]
    exact List.mem_singleton.mpr rfl
  have hdc : dirColumn diskDraft.cfg tDraftListed.path =
      some { id := "inbox", name := "Inbox", dir := "00-inbox", status := "open" } := by
    rfl
  have h := (c2_path_is_authoritative diskDraft hwf).1 {} tDraftListed
    { id := "inbox", name := "Inbox", dir := "00-inbox", status := "open" } hmem hdc
  exact ⟨hwf, hmem, hdc, h.1, h.2⟩

/-- C5 (amended): the list returned by `listTasks` is pairwise ordered
    by the actual comparator `taskLess`: due date ascending only when
    both dues are nonempty and differ — a task with an empty due date is
    not forced last — otherwise `updatedAt` descending when both
    timestamps are present, otherwise id ascending. -/
theorem c5_listTasks_sorted_by_taskLess (d : Disk) (f : ListFilter) :
    List.Chain' (fun a b => taskLess b a = false) (listTasks d f) := by
  unfold listTasks
  exact goSort_chain taskLess taskLess_asym _

/-- Counterexample for C5: in the two-task store the task with an empty
    due date is listed first, not last, because its `updatedAt` is more
    recent; the spec's comparator orders the pair the other way. -/
theorem c5_empty_due_not_last_counterexample :
    listTasks diskDue {} =
      [{ tNoDue with body := "\n" }, { tDueB with body := "\n" }] ∧
    specTaskLess { tDueB with body := "\n" } { tNoDue with body := "\n" } = true ∧
    ¬ List.Chain' (fun a b => specTaskLess b a = false) (listTasks diskDue {}) := by
  have hl : listTasks diskDue {} =
      [{ tNoDue with body := "\n" }, { tDueB with body := "\n" }] := by rfl
  have hsp : specTaskLess { tDueB with body := "\n" } { tNoDue with body := "\n" } =
      true := by rfl
  refine ⟨hl, hsp, ?_⟩
  intro hch
  rw [hl] at hch
  obtain ⟨h1, -⟩ := List.chain'_cons.mp hch
  rw [hsp] at h1
  cases h1

/-- Selector-candidate lists are always emitted through the
    `sortSelectorMatches` comparator. -/
theorem resolveSelectorCandidates_chain (d : Disk) (sel : String)
    (fl : SelectorFilter) :
    List.Chain' (fun a b => selLess b a = false)
      (resolveSelectorCandidates d sel fl) := by
  have hp : ∀ fl' : SelectorFilter, List.Chain' (fun a b => selLess b a = false)
      (findTasksByPrefixFiltered d sel fl') := by
    intro fl'
    unfold findTasksByPrefixFiltered
    by_cases hq : findTasksByPrefix d sel = []
    · rw [if_pos hq]; exact List.chain'_nil
    · rw [if_neg hq]; exact goSort_chain selLess selLess_asym _
  have hm : ∀ fl' : SelectorFilter, List.Chain' (fun a b => selLess b a = false)
      (findTasksByMatchMode d sel fl') := by
    intro fl'
    unfold findTasksByMatchMode
    split
    · unfold findTasksBySearchFiltered; exact goSort_chain selLess selLess_asym _
    split
    · unfold findTasksByTitlePrefixFiltered; exact goSort_chain selLess selLess_asym _
    split
    · unfold findTasksByTitleContainsFiltered; exact goSort_chain selLess selLess_asym _
    · unfold findTasksByTitleExactFiltered; exact goSort_chain selLess selLess_asym _
  unfold resolveSelectorCandidates
  simp only []
  split
  · split
    · exact hp _
    · exact hm _
  · split
    · exact hm _
    · exact hp _

/-- C7 (amended): with a nonblank selector, unique-record resolution
    returns NotFound on zero candidates, the task on exactly one, and a
    Conflict carrying the full candidate list on two or more; candidate
    lists are pairwise ordered by project, then column, then
    case-insensitive title — with no id tiebreak. -/
theorem c7_unique_resolution_and_ordering (d : Disk) (sel : String)
    (fl : SelectorFilter) (hne : trimSpace sel ≠ "") :
    (resolveSelectorCandidates d (trimSpace sel) fl = [] →
      getTaskBySelectorFiltered d sel fl = .error .notFound) ∧
    (∀ t, resolveSelectorCandidates d (trimSpace sel) fl = [t] →
      getTaskBySelectorFiltered d sel fl = .ok t) ∧
    (∀ ms, resolveSelectorCandidates d (trimSpace sel) fl = ms → 2 ≤ ms.length →
      getTaskBySelectorFiltered d sel fl = .error (.conflict "selector" ms)) ∧
    List.Chain' (fun a b => selLess b a = false)
      (resolveSelectorCandidates d (trimSpace sel) fl) := by
  refine ⟨?_, ?_, ?_, resolveSelectorCandidates_chain d (trimSpace sel) fl⟩
  · intro h0
    unfold getTaskBySelectorFiltered
    simp only []
    rw [if_neg hne, h0]
  · intro t h1
    unfold getTaskBySelectorFiltered
    simp only []
    rw [if_neg hne, h1]
  · intro ms heq hlen
    rcases ms with _ | ⟨a, _ | ⟨b, r⟩⟩
    · simp at hlen
    · simp at hlen
    · unfold getTaskBySelectorFiltered
      simp only []
      rw [if_neg hne, heq]

/-- Counterexample for C7: both same-titled tasks match the selector,
    and the conflict list carries them with ids in strictly descending
    order — there is no id-ascending tiebreak. -/
theorem c7_conflict_ids_descending_counterexample :
    getTaskBySelectorFiltered diskSame "Same title" {} =
      .error (.conflict "selector"
        [{ tSameZ with body := "\n" }, { tSameA with body := "\n" }]) ∧
    sltB "tsk_01AAAA" "tsk_01ZZZZ" = true := by
  exact ⟨rfl, rfl⟩

/-- Witness for C7: the conflict arm of the amended theorem applied to
    the same-title store. -/
theorem c7_unique_resolution_and_ordering_witness :
    trimSpace "Same title" ≠ "" ∧
    getTaskBySelectorFiltered diskSame "Same title" {} =
      .error (.conflict "selector"
        (resolveSelectorCandidates diskSame (trimSpace "Same title") {})) ∧
    List.Chain' (fun a b => selLess b a = false)
      (resolveSelectorCandidates diskSame (trimSpace "Same title") {}) := by
  have h := c7_unique_resolution_and_ordering diskSame "Same title" {} (by decide)
  exact ⟨by decide, h.2.2.1 _ rfl (by decide), h.2.2.2⟩

/-- Every element kept by the dedupe loop is a trimmed input element. -/
theorem dedupeLoop_mem : ∀ (l seen : List String) (s : String),
    s ∈ dedupeLoop seen l → s ∈ l.map trimSpace := by
  intro l
  induction l with
  | nil => intro seen s h; simp [dedupeLoop] at h
  | cons x rest ih =>
    intro seen s h
    simp only [dedupeLoop] at h
    rw [List.map_cons]
    split at h
    · exact List.mem_cons_of_mem _ (ih seen s h)
    · split at h
      · exact List.mem_cons_of_mem _ (ih seen s h)
      · rcases List.mem_cons.mp h with rfl | h2
        · exact List.mem_cons_self _ _
        · exact List.mem_cons_of_mem _ (ih _ s h2)

/-- The dedupe loop emits no key in `seen` and no key twice. -/
theorem dedupeLoop_fresh_nodup : ∀ (l seen : List String),
    (∀ s ∈ dedupeLoop seen l, seen.contains (toLowerS s) = false) ∧
    ((dedupeLoop seen l).map (fun s => toLowerS s)).Nodup := by
  intro l
  induction l with
  | nil => intro seen; simp [dedupeLoop]
  | cons x rest ih =>
    intro seen
    simp only [dedupeLoop]
    split
    · exact ih seen
    · split
      · exact ih seen
      · rename_i hblank hseen
        obtain ⟨ihFresh, ihNodup⟩ := ih (toLowerS (trimSpace x) :: seen)
        constructor
        · intro s hs
          rcases List.mem_cons.mp hs with rfl | hs2
          · simpa using hseen
          · have := ihFresh s hs2
            simp only [List.contains_cons, Bool.or_eq_false_iff] at this
            exact this.2
        · rw [List.map_cons, List.nodup_cons]
          refine ⟨?_, ihNodup⟩
          intro hmem
          obtain ⟨t, ht, hteq⟩ := List.mem_map.mp hmem
          have := ihFresh t ht
          rw [hteq] at this
          simp [List.contains_cons] at this

/-- Every nonblank input element has a case-insensitive representative
    in the dedupe-loop output (or its key was already seen). -/
theorem dedupeLoop_covers : ∀ (l seen : List String) (s : String), s ∈ l →
    trimSpace s ≠ "" →
    seen.contains (toLowerS (trimSpace s)) = true ∨
    ∃ t ∈ dedupeLoop seen l, toLowerS t = toLowerS (trimSpace s) := by
  intro l
  induction l with
  | nil => intro seen s h; cases h
  | cons x rest ih =>
    intro seen s hs hne
    simp only [dedupeLoop]
    rcases List.mem_cons.mp hs with rfl | hs2
    · split
      · exact absurd (by assumption) hne
      · split
        · exact Or.inl (by assumption)
        · exact Or.inr ⟨trimSpace s, List.mem_cons_self _ _, rfl⟩
    · split
      · exact ih seen s hs2 hne
      · split
        · exact ih seen s hs2 hne
        · rcases ih (toLowerS (trimSpace x) :: seen) s hs2 hne with hl | ⟨t, ht, hteq⟩
          · rw [List.contains_cons] at hl
            rcases Bool.or_eq_true_iff.mp hl with heq | hseen
            · refine Or.inr ⟨trimSpace x, List.mem_cons_self _ _, ?_⟩
              exact (eq_of_beq heq).symm
            · exact Or.inl hseen
          · exact Or.inr ⟨t, List.mem_cons_of_mem _ ht, hteq⟩

/-- C4 (amended): the stored tags are `dedupeStrings input.tags` —
    byte-wise sorted and case-insensitively deduplicated, but each kept
    tag retains the original case of its first occurrence (the tags are
    not case folded). -/
theorem c4_tags_deduped_sorted_original_case :
    (∀ (d : Disk) (now p i : String) (input : AddTaskInput) (d2 : Disk) (t : Task),
      addTask d now p i input = Except.ok (d2, t) →
      t.tags = dedupeStrings input.tags) ∧
    (∀ l : List String, List.Chain' (fun a b => sltB b a = false) (dedupeStrings l)) ∧
    (∀ l : List String, ∀ s ∈ dedupeStrings l, s ∈ l.map trimSpace) ∧
    (∀ l : List String, ((dedupeStrings l).map (fun s => toLowerS s)).Nodup) ∧
    (∀ (l : List String) (s : String), s ∈ l → trimSpace s ≠ "" →
      ∃ t ∈ dedupeStrings l, toLowerS t = toLowerS (trimSpace s)) := by
  refine ⟨?_, ?_, ?_, ?_, ?_⟩
  · intro d now p i input d2 t hok
    unfold addTask at hok
    simp only [] at hok
    split at hok
    · cases hok
    split at hok
    · cases hok
    split at hok
    · cases hok
    have := Except.ok.inj hok
    have ht := congrArg Prod.snd this
    simp only [] at ht
    rw [← ht]
  · intro l
    unfold dedupeStrings
    exact goSort_chain sltB sltB_asym _
  · intro l s hs
    exact dedupeLoop_mem l [] s ((mem_goSort _ _ _).mp hs)
  · intro l
    have hperm := (goSort_perm sltB (dedupeLoop [] l)).map (fun s => toLowerS s)
    exact hperm.nodup_iff.mpr (dedupeLoop_fresh_nodup l []).2
  · intro l s hs hne
    rcases dedupeLoop_covers l [] s hs hne with h | ⟨t, ht, hteq⟩
    · cases h
    · exact ⟨t, (mem_goSort _ _ _).mpr ht, hteq⟩

/-- Counterexample for C4: the mixed-case duplicate tags
    `["Alpha", "alpha", "BETA"]` are stored as `["Alpha", "BETA"]` —
    deduplicated and sorted, but not folded to `["alpha", "beta"]`. -/
theorem c4_tags_not_case_folded_counterexample :
    dedupeStrings ["Alpha", "alpha", "BETA"] = ["Alpha", "BETA"] ∧
    (addTagsRes.2).tags = ["Alpha", "BETA"] ∧
    dedupeStrings ["Alpha", "alpha", "BETA"] ≠ ["alpha", "beta"] := by
  refine ⟨rfl, rfl, ?_⟩
  intro h
  rw [(rfl : dedupeStrings ["Alpha", "alpha", "BETA"] = ["Alpha", "BETA"])] at h
  exact absurd h (by decide)

/-- Witness for C4: the dedupe description applied to the concrete
    `addTask` run on the empty workspace. -/
theorem c4_tags_deduped_sorted_original_case_witness :
    addTask diskEmpty "2026-01-01T00:00:00Z" "01PRJ" "01TSK" inpTags =
      Except.ok (addTagsRes.1, addTagsRes.2) ∧
    (addTagsRes.2).tags = dedupeStrings ["Alpha", "alpha", "BETA"] ∧
    ("alpha" : String) ∈ ["Alpha", "alpha", "BETA"] ∧ trimSpace "alpha" ≠ "" ∧
    ∃ t ∈ dedupeStrings ["Alpha", "alpha", "BETA"],
      toLowerS t = toLowerS (trimSpace "alpha") := by
  refine ⟨rfl, ?_, by decide, by decide, ?_⟩
  · exact c4_tags_deduped_sorted_original_case.1 diskEmpty "2026-01-01T00:00:00Z"
      "01PRJ" "01TSK" inpTags addTagsRes.1 addTagsRes.2 rfl
  · exact c4_tags_deduped_sorted_original_case.2.2.2.2 ["Alpha", "alpha", "BETA"]
      "alpha" (by decide) (by decide)

/-- `find?` over the file list after an atomic write finds exactly the
    written file. -/
theorem find?_write (files rest : List TFile) (x : TFile) (p : FPath)
    (hx : x.path = p) :
    ((files.filter (fun f => f.path ≠ p) ++ [x]) ++ rest).find?
      (fun f => f.path = p) = some x := by
  rw [List.find?_append, List.find?_append]
  rw [List.find?_eq_none.mpr (by
    intro f hf
    rw [List.mem_filter] at hf
    simpa using hf.2)]
  rw [List.find?_cons_of_pos _ (by simp [hx])]
  rfl

/-- C3 (amended): writing a valid task and reading the same path back
    preserves the whole structured header — title, tags, priority, due —
    but the read-back body is the written body normalised by `bodyOut`
    and preceded by one newline, so body bytes are not preserved. -/
theorem c3_write_read_roundtrip (d : Disk) (t : Task) (hv : validTask t = true) :
    readTaskFile (writeTaskToDisk d t) t.path =
      .ok { toTaskMeta := t.toTaskMeta, path := t.path
          , body := "\n" ++ bodyOut t.body } := by
  unfold readTaskFile
  rw [show allProjectFiles (writeTaskToDisk d t) =
      (d.files.filter (fun f => f.path ≠ t.path) ++
        [⟨t.path, writeTaskContent t⟩]) ++
      ((d.ideaFiles.filter (fun i => i.project ≠ "")).map
        (fun i => (⟨⟨i.project, ["ideas"], i.fname⟩, i.content⟩ : TFile))) from rfl]
  rw [find?_write d.files _ ⟨t.path, writeTaskContent t⟩ t.path rfl]
  simp only []
  rw [parseFrontmatter_write t hv]

/-- Counterexample for C3: the fixture body `"hello\n"` reads back as
    `"\nhello\n"`, so the written and read bodies differ. -/
theorem c3_body_not_identical_counterexample :
    (readTaskFile diskDraft tDraftV2.path).map (fun t => t.body) =
      .ok "\nhello\n" ∧
    tDraftV2.body = "hello\n" ∧
    (readTaskFile diskDraft tDraftV2.path).map (fun t => t.body) ≠
      .ok tDraftV2.body := by
  refine ⟨rfl, rfl, ?_⟩
  intro h
  have h2 : (Except.ok "\nhello\n" : Except Err String) = Except.ok tDraftV2.body :=
    Eq.trans (by rfl) h
  exact absurd (Except.ok.inj h2) (by decide)

/-- Witness for C3: the round trip applied to the draft fixture task. -/
theorem c3_write_read_roundtrip_witness :
    validTask tDraftV2 = true ∧
    readTaskFile (writeTaskToDisk diskEmpty tDraftV2) tDraftV2.path =
      .ok { toTaskMeta := tDraftV2.toTaskMeta, path := tDraftV2.path
          , body := "\n" ++ bodyOut tDraftV2.body } :=
  ⟨by decide, c3_write_read_roundtrip diskEmpty tDraftV2 (by decide)⟩

/-- Witness for C6: moving the fixture task into `done` and then into
    `todo` (status `open`), applying the theorem to both moves. -/
theorem c6_move_sets_completion_stamps_witness :
    ((columnByID diskDraft.cfg "done").map (fun c => c.status) =
        some tMovedDone.status ∧
      (tMovedDone.completedAt.isSome ↔ tMovedDone.status = "done") ∧
      (tMovedDone.archivedAt.isSome ↔ tMovedDone.status = "archived") ∧
      (tMovedDone.status = "done" →
        tMovedDone.completedAt = some "2026-02-01T00:00:00Z" ∧
        tMovedDone.archivedAt = none) ∧
      (tMovedDone.status = "open" →
        tMovedDone.completedAt = none ∧ tMovedDone.archivedAt = none)) ∧
    ((columnByID diskMovedDone.cfg "todo").map (fun c => c.status) =
        some tMovedTodo.status ∧
      (tMovedTodo.completedAt.isSome ↔ tMovedTodo.status = "done") ∧
      (tMovedTodo.archivedAt.isSome ↔ tMovedTodo.status = "archived") ∧
      (tMovedTodo.status = "done" →
        tMovedTodo.completedAt = some "2026-02-02T00:00:00Z" ∧
        tMovedTodo.archivedAt = none) ∧
      (tMovedTodo.status = "open" →
        tMovedTodo.completedAt = none ∧ tMovedTodo.archivedAt = none)) :=
  ⟨c6_move_sets_completion_stamps diskDraft "2026-02-01T00:00:00Z" "TSK_01HZZA"
      "done" diskMovedDone tMovedDone (by rfl),
   c6_move_sets_completion_stamps diskMovedDone "2026-02-02T00:00:00Z" "tsk_01hzza"
      "todo" diskMovedTodo tMovedTodo (by rfl)⟩

end Store
